import Mathlib

/-!
Shallow embedding of the token core of the `hytale-auth-server` repository
(`src/services/auth.js`), together with proofs about the claims of its
specification.

Modelling conventions:
  * JavaScript strings are Lean `String`s; byte buffers are `List Nat`
    with each byte reduced modulo 256 (as `Buffer` enforces).
  * `JSON.stringify` / `JSON.parse` are embedded as an executable
    serializer and recursive-descent parser over an inductive `Json` type
    (numbers restricted to naturals, which covers every numeric claim the
    server emits: `iat` and `exp` timestamps).  Non-ASCII characters are
    serialized with `\uXXXX` escapes (surrogate pairs above the BMP), an
    encoding `JSON.parse` reads back identically, so the composite
    stringify-then-parse behaviour matches the JavaScript runtime.
  * Nondeterministic inputs of the code (current time, random `jti`,
    signature bytes produced by `crypto.sign`, freshly generated key
    pairs) are explicit parameters.
  * `undefined` / `null` JavaScript values are `Option.none`; JavaScript
    truthiness is the executable `jsTruthy`.
-/

set_option maxHeartbeats 1000000

namespace HytaleAuth

/-- Server configuration as consumed by `src/services/auth.js` via
`require('../config')`: the base domain used by issuer resolution, the
session TTL in seconds, the signing key id and the key persistence path. -/
structure Config where
  domain : String
  sessionTtl : Nat
  keyId : String
  keyFile : String
deriving DecidableEq, Repr

/-- Modelled from the spec: the configuration module itself is not part of
the sources under review, so its defaults are taken from the spec — session
TTL seconds default 36000 (§6 Configuration), base domain `sanasol.ws`
(also named by the comments and tests of `src/services/auth.js`).  The key
id and key file path are opaque strings; no claim depends on their value. -/
def defaultConfig : Config :=
  { domain := "sanasol.ws"
  , sessionTtl := 36000
  , keyId := "hytale-auth-key-1"
  , keyFile := "/data/keys/signing-key.json" }

mutual

/-- JSON values as produced and consumed by the token core. -/
inductive Json where
  | jnull : Json
  | jbool : Bool → Json
  | jnum : Nat → Json
  | jstr : String → Json
  | jarr : JsonItems → Json
  | jobj : JsonFields → Json
deriving DecidableEq, Repr

/-- Elements of a JSON array. -/
inductive JsonItems where
  | nil : JsonItems
  | cons : Json → JsonItems → JsonItems
deriving DecidableEq, Repr

/-- Key/value fields of a JSON object, in insertion order. -/
inductive JsonFields where
  | nil : JsonFields
  | cons : String → Json → JsonFields → JsonFields
deriving DecidableEq, Repr

end

/-- Property lookup on an object's field list.  JavaScript object literals
and `JSON.parse` let a later duplicate key overwrite an earlier one, so the
last binding wins. -/
def jlookupFields : JsonFields → String → Option Json
  | .nil, _ => none
  | .cons k v rest, key =>
    match jlookupFields rest key with
    | some r => some r
    | none => if k = key then some v else none

/-- Property access `j.key`: `undefined` (`none`) on non-objects. -/
def jlookup (j : Json) (key : String) : Option Json :=
  match j with
  | .jobj fields => jlookupFields fields key
  | _ => none

/-- JavaScript truthiness of a JSON value. -/
def jsTruthy : Json → Bool
  | .jnull => false
  | .jbool b => b
  | .jnum n => n != 0
  | .jstr s => s != ""
  | .jarr _ => true
  | .jobj _ => true

/-- Truthiness of a possibly-`undefined` value. -/
def jsTruthyOpt : Option Json → Bool
  | none => false
  | some v => jsTruthy v

/-- `a || b` on possibly-`undefined` JSON values. -/
def jsOr (a b : Option Json) : Option Json :=
  match a with
  | none => b
  | some v => if jsTruthy v then some v else b

/-- Strict equality `v === s` against a string literal. -/
def isStrEq (o : Option Json) (s : String) : Bool :=
  match o with
  | some (.jstr t) => t == s
  | _ => false

/-! ### `JSON.stringify` -/

/-- Lower-case hexadecimal digit, for `\uXXXX` escapes. -/
def hexDigitChar (n : Nat) : Char :=
  if n < 10 then Char.ofNat (48 + n) else Char.ofNat (87 + n)

/-- Four-digit hexadecimal rendering of `n < 65536`. -/
def hex4 (n : Nat) : List Char :=
  [hexDigitChar (n / 4096 % 16), hexDigitChar (n / 256 % 16),
   hexDigitChar (n / 16 % 16), hexDigitChar (n % 16)]

/-- Serialization of one character inside a JSON string literal: the
two-character escapes of `JSON.stringify`, `\uXXXX` for other control
characters, the character itself for printable ASCII, and `\uXXXX`
(surrogate pairs beyond the BMP) for non-ASCII, which keeps the emitted
document pure ASCII while denoting the same string. -/
def escapeChar (c : Char) : List Char :=
  if c = '"' then ['\\', '"']
  else if c = '\\' then ['\\', '\\']
  else if c = Char.ofNat 8 then ['\\', 'b']
  else if c = Char.ofNat 9 then ['\\', 't']
  else if c = Char.ofNat 10 then ['\\', 'n']
  else if c = Char.ofNat 12 then ['\\', 'f']
  else if c = Char.ofNat 13 then ['\\', 'r']
  else if c.toNat < 32 then '\\' :: 'u' :: hex4 c.toNat
  else if c.toNat < 128 then [c]
  else if c.toNat < 65536 then '\\' :: 'u' :: hex4 c.toNat
  else
    ('\\' :: 'u' :: hex4 (55296 + (c.toNat - 65536) / 1024)) ++
    ('\\' :: 'u' :: hex4 (56320 + (c.toNat - 65536) % 1024))

/-- Escape every character of a string body. -/
def escapeString : List Char → List Char
  | [] => []
  | c :: rest => escapeChar c ++ escapeString rest

/-- Decimal digits of `n`, least significant first. -/
def natDigitsRev (n : Nat) : List Char :=
  if _h : n < 10 then [hexDigitChar n]
  else hexDigitChar (n % 10) :: natDigitsRev (n / 10)
decreasing_by omega

/-- Decimal rendering of `n`, most significant first. -/
def natChars (n : Nat) : List Char :=
  (natDigitsRev n).reverse

mutual

/-- `JSON.stringify` (compact form, no whitespace). -/
def stringifyJson : Json → List Char
  | .jnull => ['n', 'u', 'l', 'l']
  | .jbool true => ['t', 'r', 'u', 'e']
  | .jbool false => ['f', 'a', 'l', 's', 'e']
  | .jnum n => natChars n
  | .jstr s => '"' :: (escapeString s.data ++ ['"'])
  | .jarr items => '[' :: (stringifyItems items ++ [']'])
  | .jobj fields => '{' :: (stringifyFields fields ++ ['}'])

/-- Array elements, comma separated. -/
def stringifyItems : JsonItems → List Char
  | .nil => []
  | .cons v rest => stringifyJson v ++ stringifyItemsTail rest

/-- Array elements after the first, each preceded by a comma. -/
def stringifyItemsTail : JsonItems → List Char
  | .nil => []
  | .cons v rest => ',' :: (stringifyJson v ++ stringifyItemsTail rest)

/-- Object fields, comma separated. -/
def stringifyFields : JsonFields → List Char
  | .nil => []
  | .cons k v rest =>
    '"' :: (escapeString k.data ++ '"' :: ':' :: (stringifyJson v ++ stringifyFieldsTail rest))

/-- Object fields after the first, each preceded by a comma. -/
def stringifyFieldsTail : JsonFields → List Char
  | .nil => []
  | .cons k v rest =>
    ',' :: '"' :: (escapeString k.data ++ '"' :: ':' :: (stringifyJson v ++ stringifyFieldsTail rest))

end

/-! ### `JSON.parse` -/

/-- Value of a decimal digit character, `none` for anything else. -/
def digitVal (c : Char) : Option Nat :=
  if 48 ≤ c.toNat ∧ c.toNat ≤ 57 then some (c.toNat - 48) else none

/-- Value of a hexadecimal digit character (either case). -/
def hexVal (c : Char) : Option Nat :=
  if 48 ≤ c.toNat ∧ c.toNat ≤ 57 then some (c.toNat - 48)
  else if 97 ≤ c.toNat ∧ c.toNat ≤ 102 then some (c.toNat - 87)
  else if 65 ≤ c.toNat ∧ c.toNat ≤ 70 then some (c.toNat - 55)
  else none

/-- Value of four hexadecimal digit characters. -/
def hexVal4 (a b c d : Char) : Option Nat :=
  match hexVal a, hexVal b, hexVal c, hexVal d with
  | some x, some y, some z, some w => some (4096 * x + 256 * y + 16 * z + w)
  | _, _, _, _ => none

/-- Greedily consume decimal digits, extending the accumulator. -/
def parseNatChars (acc : Nat) : List Char → Nat × List Char
  | [] => (acc, [])
  | c :: rest =>
    match digitVal c with
    | some d => parseNatChars (10 * acc + d) rest
    | none => (acc, c :: rest)

/-- Parse a natural number literal; fails unless the input starts with a
decimal digit. -/
def parseNatFrom : List Char → Option (Nat × List Char)
  | [] => none
  | c :: rest =>
    match digitVal c with
    | some d => some (parseNatChars d rest)
    | none => none

/-- The character denoted by a single-character escape `\e`; `none` if
`e` is not one of the eight short escapes. -/
def simpleEscape (e : Char) : Option Char :=
  if e = 'n' then some (Char.ofNat 10)
  else if e = 't' then some (Char.ofNat 9)
  else if e = 'r' then some (Char.ofNat 13)
  else if e = 'b' then some (Char.ofNat 8)
  else if e = 'f' then some (Char.ofNat 12)
  else if e = '"' then some '"'
  else if e = '\\' then some '\\'
  else if e = '/' then some '/'
  else none

/-- Decode what follows `\u`: four hex digits, and for a high surrogate a
mandatory `\uXXXX` low surrogate that combines into one scalar value.
Returns the decoded character and the unconsumed input.  Dangling
surrogates are rejected. -/
def uEscape : List Char → Option (Char × List Char)
  | a :: b :: c :: d :: rest =>
    (match hexVal4 a b c d with
     | none => none
     | some n =>
       if 55296 ≤ n ∧ n ≤ 56319 then
         match rest with
         | s1 :: s2 :: a2 :: b2 :: c2 :: d2 :: rest2 =>
           if s1 = '\\' ∧ s2 = 'u' then
             match hexVal4 a2 b2 c2 d2 with
             | none => none
             | some m =>
               if 56320 ≤ m ∧ m ≤ 57343 then
                 some (Char.ofNat (65536 + (n - 55296) * 1024 + (m - 56320)), rest2)
               else none
           else none
         | _ => none
       else if 56320 ≤ n ∧ n ≤ 57343 then none
       else some (Char.ofNat n, rest))
  | _ => none

mutual

/-- Parse the body of a JSON string literal up to and beyond its closing
quote, decoding the escape sequences of §7 of RFC 8259 (surrogate pairs
combined into one scalar; dangling surrogates rejected, raw control
characters rejected).  The fuel argument only serves termination; every
call site passes enough for the whole input (each decoded character costs
at most two units). -/
def parseStringBody : Nat → List Char → Option (List Char × List Char)
  | 0, _ => none
  | Nat.succ _, [] => none
  | Nat.succ g, c :: rest =>
    if c = '"' then some ([], rest)
    else if c = '\\' then parseEscape g rest
    else if c.toNat < 32 then none
    else (parseStringBody g rest).map (fun p => (c :: p.1, p.2))

/-- Decode the character(s) following a backslash, then continue with the
rest of the string body. -/
def parseEscape : Nat → List Char → Option (List Char × List Char)
  | 0, _ => none
  | Nat.succ _, [] => none
  | Nat.succ g, e :: rest2 =>
    match simpleEscape e with
    | some ch => (parseStringBody g rest2).map (fun p => (ch :: p.1, p.2))
    | none =>
      if e = 'u' then
        match uEscape rest2 with
        | some (ch, rest3) => (parseStringBody g rest3).map (fun p => (ch :: p.1, p.2))
        | none => none
      else none

end

/-- Continuation of a `null` literal after its leading `n`. -/
def parseNullBody : List Char → Option (Json × List Char)
  | 'u' :: 'l' :: 'l' :: rest => some (.jnull, rest)
  | _ => none

/-- Continuation of a `true` literal after its leading `t`. -/
def parseTrueBody : List Char → Option (Json × List Char)
  | 'r' :: 'u' :: 'e' :: rest => some (.jbool true, rest)
  | _ => none

/-- Continuation of a `false` literal after its leading `f`. -/
def parseFalseBody : List Char → Option (Json × List Char)
  | 'a' :: 'l' :: 's' :: 'e' :: rest => some (.jbool false, rest)
  | _ => none

mutual

/-- Fuel-indexed recursive-descent parser for one JSON value, returning
the value and the unconsumed suffix.  Dispatch is on the first
character: literals, strings, arrays, objects, and natural number
literals. -/
def parseValue : Nat → List Char → Option (Json × List Char)
  | 0, _ => none
  | Nat.succ _, [] => none
  | Nat.succ f, c :: cs =>
    if c = 'n' then parseNullBody cs
    else if c = 't' then parseTrueBody cs
    else if c = 'f' then parseFalseBody cs
    else if c = '"' then
      (parseStringBody (2 * cs.length + 1) cs).map (fun p => (.jstr (String.mk p.1), p.2))
    else if c = '[' then (parseItems f cs).map (fun p => (.jarr p.1, p.2))
    else if c = '{' then (parseFields f cs).map (fun p => (.jobj p.1, p.2))
    else (parseNatFrom (c :: cs)).map (fun p => (.jnum p.1, p.2))

/-- Parse the contents of an array after its `[`: either the immediate
closing bracket, or one-or-more comma-separated elements. -/
def parseItems : Nat → List Char → Option (JsonItems × List Char)
  | 0, _ => none
  | Nat.succ f, cs =>
    match cs with
    | ']' :: rest => some (.nil, rest)
    | _ => parseItemsMore f cs

/-- Parse one or more comma-separated array elements and the closing
bracket. -/
def parseItemsMore : Nat → List Char → Option (JsonItems × List Char)
  | 0, _ => none
  | Nat.succ f, cs =>
    match parseValue f cs with
    | none => none
    | some (v, rest) =>
      match rest with
      | ',' :: rest2 =>
        match parseItemsMore f rest2 with
        | some (items, rest3) => some (.cons v items, rest3)
        | none => none
      | ']' :: rest2 => some (.cons v .nil, rest2)
      | _ => none

/-- Parse the contents of an object after its `{`: either the immediate
closing brace, or one-or-more comma-separated members. -/
def parseFields : Nat → List Char → Option (JsonFields × List Char)
  | 0, _ => none
  | Nat.succ f, cs =>
    match cs with
    | '}' :: rest => some (.nil, rest)
    | _ => parseFieldsMore f cs

/-- Parse one or more comma-separated object members and the closing
brace. -/
def parseFieldsMore : Nat → List Char → Option (JsonFields × List Char)
  | 0, _ => none
  | Nat.succ f, cs =>
    match cs with
    | '"' :: cs2 =>
      (match parseStringBody (2 * cs2.length + 1) cs2 with
       | none => none
       | some (key, rest) =>
         match rest with
         | ':' :: rest2 =>
           (match parseValue f rest2 with
            | none => none
            | some (v, rest3) =>
              match rest3 with
              | ',' :: rest4 =>
                (match parseFieldsMore f rest4 with
                 | some (fields, rest5) => some (.cons (String.mk key) v fields, rest5)
                 | none => none)
              | '}' :: rest4 => some (.cons (String.mk key) v .nil, rest4)
              | _ => none)
         | _ => none)
    | _ => none

end

/-- `JSON.parse` on a character list: the whole input must be one JSON
value.  The fuel `length + 1` always suffices because the parser consumes
at least one character per unit of fuel spent (established by the
round-trip lemmas below for the inputs the claims need). -/
def parseJsonChars (cs : List Char) : Option Json :=
  match parseValue (2 * cs.length + 1) cs with
  | some (v, []) => some v
  | _ => none

/-! ### Byte strings and URL-safe base64 -/

/-- `Buffer.from(string)` for the ASCII documents the codec emits: the
code points of the characters.  (`b64Encode` reduces every byte modulo
256, as `Buffer` does.) -/
def charsToBytes (cs : List Char) : List Nat :=
  cs.map Char.toNat

/-- `buffer.toString()` restricted to ASCII payloads: fails on any byte
with the high bit set (multi-byte UTF-8 sequences are outside this model;
no claim depends on them). -/
def bytesToChars : List Nat → Option (List Char)
  | [] => some []
  | b :: rest =>
    if b < 128 then (bytesToChars rest).map (fun cs => Char.ofNat b :: cs)
    else none

/-- Character of one six-bit group in the URL-safe base64 alphabet
`A–Z a–z 0–9 - _`. -/
def b64Char (n : Nat) : Char :=
  if n < 26 then Char.ofNat (65 + n)
  else if n < 52 then Char.ofNat (97 + (n - 26))
  else if n < 62 then Char.ofNat (48 + (n - 52))
  else if n = 62 then '-'
  else '_'

/-- Index of a character in the URL-safe base64 alphabet. -/
def b64Index (c : Char) : Option Nat :=
  if 65 ≤ c.toNat ∧ c.toNat ≤ 90 then some (c.toNat - 65)
  else if 97 ≤ c.toNat ∧ c.toNat ≤ 122 then some (c.toNat - 71)
  else if 48 ≤ c.toNat ∧ c.toNat ≤ 57 then some (c.toNat + 4)
  else if c = '-' then some 62
  else if c = '_' then some 63
  else none

/-- `buffer.toString('base64url')`: unpadded URL-safe base64. -/
def b64Encode : List Nat → List Char
  | [] => []
  | [a] =>
    [b64Char (a % 256 / 4), b64Char (a % 256 % 4 * 16)]
  | [a, b] =>
    [b64Char (a % 256 / 4), b64Char (a % 256 % 4 * 16 + b % 256 / 16),
     b64Char (b % 256 % 16 * 4)]
  | a :: b :: c :: rest =>
    b64Char (a % 256 / 4) :: b64Char (a % 256 % 4 * 16 + b % 256 / 16) ::
    b64Char (b % 256 % 16 * 4 + c % 256 / 64) :: b64Char (c % 256 % 64) ::
    b64Encode rest

/-- `Buffer.from(s, 'base64url')`, strict on the alphabet: a character
outside the alphabet or a dangling single character yields `none` (the
JavaScript decoder is lenient there, but every such input leads to a
rejected token on both sides, which is all the claims need). -/
def b64Decode : List Char → Option (List Nat)
  | [] => some []
  | [_] => none
  | [c1, c2] =>
    match b64Index c1, b64Index c2 with
    | some x, some y => some [x * 4 + y / 16]
    | _, _ => none
  | [c1, c2, c3] =>
    match b64Index c1, b64Index c2, b64Index c3 with
    | some x, some y, some z => some [x * 4 + y / 16, y % 16 * 16 + z / 4]
    | _, _, _ => none
  | c1 :: c2 :: c3 :: c4 :: rest =>
    match b64Index c1, b64Index c2, b64Index c3, b64Index c4, b64Decode rest with
    | some x, some y, some z, some w, some tail =>
      some ((x * 4 + y / 16) :: (y % 16 * 16 + z / 4) :: (z % 4 * 64 + w) :: tail)
    | _, _, _, _, _ => none

/-! ### String helpers used by `auth.js` -/

/-- `String.prototype.split('.')`. -/
def splitOnDot : List Char → List (List Char)
  | [] => [[]]
  | c :: rest =>
    if c = '.' then [] :: splitOnDot rest
    else
      match splitOnDot rest with
      | [] => [[c]]
      | p :: ps => (c :: p) :: ps

/-- Whether `pattern` occurs at the head of `cs`. -/
def headMatches : List Char → List Char → Bool
  | [], _ => true
  | _ :: _, [] => false
  | a :: as, b :: bs => a = b && headMatches as bs

/-- `String.prototype.includes`: `needle` occurs somewhere in the
haystack. -/
def containsSubstr (needle : List Char) : List Char → Bool
  | [] => headMatches needle []
  | c :: rest => headMatches needle (c :: rest) || containsSubstr needle rest

/-- `String.prototype.replace(pattern, '')` with a string pattern:
removes the first occurrence of `pattern`, if any. -/
def removeFirst (pattern : List Char) : List Char → List Char
  | [] => []
  | c :: rest =>
    if headMatches pattern (c :: rest) then (c :: rest).drop pattern.length
    else c :: removeFirst pattern rest

/-- `path.dirname`. -/
def dirname (p : String) : String :=
  match p.data.reverse.dropWhile (fun c => c ≠ '/') with
  | [] => "."
  | [c] => String.mk [c]
  | _ :: restRev => String.mk restRev.reverse

/-! ### Issuer resolution (`getIssuerUrl`) -/

/-- `getIssuerUrl` of `src/services/auth.js` lines 21–32: when a host
header is present (and truthy), drop everything from the first `:` on;
if the remainder contains the configured domain, the issuer is
`https://<host>`, otherwise `https://<domain>`. -/
def getIssuerUrl (cfg : Config) (requestHost : Option String) : String :=
  match requestHost with
  | some h =>
    if h ≠ "" then
      let host := h.data.takeWhile (fun c => c ≠ ':')
      if containsSubstr cfg.domain.data host then "https://" ++ String.mk host
      else "https://" ++ cfg.domain
    else "https://" ++ cfg.domain
  | none => "https://" ++ cfg.domain

/-- Modelled from the spec (§4.3 Resolution), for comparison with the
code's `getIssuerUrl`: "Strip any port from the host header.  If the
remaining host contains the configured base domain as a substring, the
issuer is `https://<host>`.  Otherwise the issuer is
`https://<configured base domain>`" — also when no host header is
present. -/
def specResolveIssuer (cfg : Config) (requestHost : Option String) : String :=
  match requestHost with
  | none => "https://" ++ cfg.domain
  | some h =>
    let host := h.data.takeWhile (fun c => c ≠ ':')
    if containsSubstr cfg.domain.data host then "https://" ++ String.mk host
    else "https://" ++ cfg.domain

/-! ### Scope normalization and token emission -/

/-- `DEFAULT_SCOPES` of `src/services/auth.js` line 108. -/
def DEFAULT_SCOPES : String := "hytale:server hytale:client hytale:editor"

/-- The `scopes` argument of the token builders: `null`/`undefined`, a
string, or an array of strings. -/
inductive ScopesInput where
  | noScopes : ScopesInput
  | strScopes : String → ScopesInput
  | arrScopes : List String → ScopesInput
deriving DecidableEq, Repr

/-- `normalizeScopes`: falsy input (`null`, `undefined`, `''`) yields the
default, an array is joined with single spaces, a non-empty string passes
through. -/
def normalizeScopes (scopes : ScopesInput) (defaultScope : String) : String :=
  match scopes with
  | .noScopes => defaultScope
  | .strScopes s => if s = "" then defaultScope else s
  | .arrScopes l => String.intercalate " " l

/-- `generateToken`: serialize the fixed header and the payload, base64url
both, and append the base64url signature (the raw Ed25519 signature bytes
produced by `crypto.sign` are a parameter). -/
def generateToken (cfg : Config) (payload : Json) (sigBytes : List Nat) : String :=
  let headerJson : Json :=
    .jobj (.cons "alg" (.jstr "EdDSA")
          (.cons "kid" (.jstr cfg.keyId)
          (.cons "typ" (.jstr "JWT") .nil)))
  let headerSeg := b64Encode (charsToBytes (stringifyJson headerJson))
  let bodySeg := b64Encode (charsToBytes (stringifyJson payload))
  String.mk (headerSeg ++ '.' :: (bodySeg ++ '.' :: b64Encode sigBytes))

/-- JSON array of strings. -/
def strItems : List String → JsonItems
  | [] => .nil
  | s :: rest => .cons (.jstr s) (strItems rest)

/-- The claim set built by `generateIdentityToken` (lines 130–149); `now`
is `Math.floor(Date.now() / 1000)` and `jti` the fresh random UUID. -/
def identityPayload (cfg : Config) (uuid name : String) (scopes : ScopesInput)
    (entitlements : List String) (requestHost : Option String)
    (now : Nat) (jti : String) : Json :=
  .jobj (.cons "sub" (.jstr uuid)
        (.cons "name" (.jstr name)
        (.cons "username" (.jstr name)
        (.cons "profile" (.jobj (.cons "username" (.jstr name) .nil))
        (.cons "entitlements" (.jarr (strItems entitlements))
        (.cons "scope" (.jstr (normalizeScopes scopes DEFAULT_SCOPES))
        (.cons "iat" (.jnum now)
        (.cons "exp" (.jnum (now + cfg.sessionTtl))
        (.cons "iss" (.jstr (getIssuerUrl cfg requestHost))
        (.cons "jti" (.jstr jti) .nil))))))))))

/-- `generateIdentityToken` itself: the signed compact token. -/
def generateIdentityToken (cfg : Config) (uuid name : String) (scopes : ScopesInput)
    (entitlements : List String) (requestHost : Option String)
    (now : Nat) (jti : String) (sigBytes : List Nat) : String :=
  generateToken cfg (identityPayload cfg uuid name scopes entitlements requestHost now jti) sigBytes

/-- The claim set built by `generateSessionToken` (lines 156–168). -/
def sessionPayload (cfg : Config) (uuid : String) (requestHost : Option String)
    (now : Nat) (jti : String) : Json :=
  .jobj (.cons "sub" (.jstr uuid)
        (.cons "scope" (.jstr "hytale:server")
        (.cons "iat" (.jnum now)
        (.cons "exp" (.jnum (now + cfg.sessionTtl))
        (.cons "iss" (.jstr (getIssuerUrl cfg requestHost))
        (.cons "jti" (.jstr jti) .nil))))))

/-- `generateSessionToken` itself. -/
def generateSessionToken (cfg : Config) (uuid : String) (requestHost : Option String)
    (now : Nat) (jti : String) (sigBytes : List Nat) : String :=
  generateToken cfg (sessionPayload cfg uuid requestHost now jti) sigBytes

/-- The claim set built by `generateAuthorizationGrant` (lines 178–194). -/
def grantPayload (cfg : Config) (uuid name audience : String) (scopes : ScopesInput)
    (requestHost : Option String) (now : Nat) (jti : String) : Json :=
  .jobj (.cons "sub" (.jstr uuid)
        (.cons "name" (.jstr name)
        (.cons "username" (.jstr name)
        (.cons "aud" (.jstr audience)
        (.cons "scope" (.jstr (normalizeScopes scopes DEFAULT_SCOPES))
        (.cons "iat" (.jnum now)
        (.cons "exp" (.jnum (now + cfg.sessionTtl))
        (.cons "iss" (.jstr (getIssuerUrl cfg requestHost))
        (.cons "jti" (.jstr jti) .nil)))))))))

/-- `generateAuthorizationGrant` itself. -/
def generateAuthorizationGrant (cfg : Config) (uuid name audience : String)
    (scopes : ScopesInput) (requestHost : Option String)
    (now : Nat) (jti : String) (sigBytes : List Nat) : String :=
  generateToken cfg (grantPayload cfg uuid name audience scopes requestHost now jti) sigBytes

/-- The claim set built by `generateAccessToken` (lines 205–230): the
`cnf` member carrying the caller's certificate fingerprint is appended
only when `certFingerprint` is truthy. -/
def accessPayload (cfg : Config) (uuid name audience : String)
    (certFingerprint : Option String) (scopes : ScopesInput)
    (requestHost : Option String) (now : Nat) (jti : String) : Json :=
  let cnfTail : JsonFields :=
    match certFingerprint with
    | some f =>
      if f ≠ "" then .cons "cnf" (.jobj (.cons "x5t#S256" (.jstr f) .nil)) .nil
      else .nil
    | none => .nil
  .jobj (.cons "sub" (.jstr uuid)
        (.cons "name" (.jstr name)
        (.cons "username" (.jstr name)
        (.cons "aud" (.jstr audience)
        (.cons "entitlements" (.jarr (strItems ["game.base"]))
        (.cons "scope" (.jstr (normalizeScopes scopes DEFAULT_SCOPES))
        (.cons "iat" (.jnum now)
        (.cons "exp" (.jnum (now + cfg.sessionTtl))
        (.cons "iss" (.jstr (getIssuerUrl cfg requestHost))
        (.cons "jti" (.jstr jti) cnfTail))))))))))

/-- `generateAccessToken` itself. -/
def generateAccessToken (cfg : Config) (uuid name audience : String)
    (certFingerprint : Option String) (scopes : ScopesInput)
    (requestHost : Option String) (now : Nat) (jti : String) (sigBytes : List Nat) : String :=
  generateToken cfg (accessPayload cfg uuid name audience certFingerprint scopes requestHost now jti) sigBytes

/-! ### Unverified parsing (`parseToken`, `extractServerAudienceFromHeaders`) -/

/-- The object `parseToken` returns on success; each member may be
`undefined`. -/
structure ParsedToken where
  uuid : Option Json
  name : Option Json
  scope : Option Json
  aud : Option Json
deriving DecidableEq, Repr

/-- The body of `parseToken`'s `try` block applied to the payload part
`p`: base64url-decode it, parse the bytes as JSON and project `sub`,
`username || name`, `scope`, `aud`.  Property access on the parse result
(`payload.sub`) throws a `TypeError` exactly when `JSON.parse` returned
`null` (every other JSON value supports property access, yielding
`undefined` on non-objects), and the throw lands in the `catch`, so a JSON
`null` payload yields `null` like every other in-block failure. -/
def payloadClaims (p : List Char) : Option ParsedToken :=
  match b64Decode p with
  | none => none
  | some bytes =>
    match bytesToChars bytes with
    | none => none
    | some cs =>
      match parseJsonChars cs with
      | none => none
      | some payload =>
        if payload = .jnull then none
        else
          some { uuid := jlookup payload "sub"
               , name := jsOr (jlookup payload "username") (jlookup payload "name")
               , scope := jlookup payload "scope"
               , aud := jlookup payload "aud" }

/-- `parseToken` (lines 235–251): split on `.`; whenever at least two
parts exist, decode the second and project the claims out of it
(`payloadClaims`); every failure inside the `try` block — including the
`TypeError` a JSON `null` payload raises — yields `null`. -/
def parseToken (s : String) : Option ParsedToken :=
  match splitOnDot s.data with
  | _ :: p :: _ => payloadClaims p
  | _ => none

/-- The request headers object as far as the core reads it. -/
structure Headers where
  authorization : Option String
deriving DecidableEq, Repr

/-- `extractServerAudienceFromHeaders` (lines 256–275): on a truthy
`authorization` header, drop the first `"Bearer "`, split on `.`, decode
and parse the second part; return the payload's `aud` when truthy, else
its `sub` when the scope is exactly `hytale:server` and `sub` is truthy,
else `null`. -/
def extractServerAudienceFromHeaders (headers : Option Headers) : Option Json :=
  match headers with
  | none => none
  | some h =>
    match h.authorization with
    | none => none
    | some auth =>
      if auth = "" then none
      else
        let tok := removeFirst "Bearer ".data auth.data
        match splitOnDot tok with
        | _ :: p :: _ =>
          match b64Decode p with
          | none => none
          | some bytes =>
            match bytesToChars bytes with
            | none => none
            | some cs =>
              match parseJsonChars cs with
              | none => none
              | some payload =>
                if jsTruthyOpt (jlookup payload "aud") then jlookup payload "aud"
                else if isStrEq (jlookup payload "scope") "hytale:server"
                        && jsTruthyOpt (jlookup payload "sub") then jlookup payload "sub"
                else none
        | _ => none

/-! ### Key store (`loadOrGenerateKeys`) -/

/-- A generated or loaded Ed25519 key pair, identified by its DER
encodings in base64 (the key material itself is opaque to the claims). -/
structure KeyPair where
  privateKeyB64 : String
  publicKeyB64 : String
deriving DecidableEq, Repr

/-- Filesystem mutations `loadOrGenerateKeys` can attempt. -/
inductive FsOp where
  | mkdirRec : String → FsOp
  | writeFile : String → String → FsOp
  | rename : String → String → FsOp
deriving DecidableEq, Repr

/-- Whether an operation is a rename. -/
def opIsRename : FsOp → Bool
  | .rename _ _ => true
  | _ => false

/-- Whether an operation writes directly to `path`. -/
def opWritesTo (path : String) : FsOp → Bool
  | .writeFile p _ => p == path
  | _ => false

/-- The slice of filesystem state the key store touches: the key file's
content (if the file exists) and whether its directory exists. -/
structure FsState where
  keyFileContent : Option String
  dirExists : Bool
deriving DecidableEq, Repr

/-- Reading the persisted record back (lines 40–51): `JSON.parse` the
file, then import the `privateKey`/`publicKey` members.  DER validation
inside `crypto.createPrivateKey` is abstracted: a record whose two members
are present as strings loads; any other content throws, which the caller
catches.  A failure anywhere in the `try` block makes
`loadOrGenerateKeys` fall through to generation. -/
def parseKeyRecord (content : String) : Option KeyPair :=
  match parseJsonChars content.data with
  | some j =>
    match jlookup j "privateKey", jlookup j "publicKey" with
    | some (.jstr sk), some (.jstr pk) => some ⟨sk, pk⟩
    | _, _ => none
  | none => none

/-- The JSON record persisted for a freshly generated pair (lines 71–75).
`JSON.stringify(keyData, null, 2)` pretty-prints with two-space indent;
the compact serialization is used here, which parses back identically. -/
def keyRecordJson (kp : KeyPair) (createdAt : String) : Json :=
  .jobj (.cons "privateKey" (.jstr kp.privateKeyB64)
        (.cons "publicKey" (.jstr kp.publicKeyB64)
        (.cons "createdAt" (.jstr createdAt) .nil)))

/-- Result of `loadOrGenerateKeys`: the in-memory key pair the module
ends up with, the filesystem mutations attempted, and the resulting
filesystem state. -/
structure LoadKeysResult where
  keys : KeyPair
  ops : List FsOp
  fs : FsState
deriving DecidableEq, Repr

/-- The generate-and-persist path (lines 59–81): keep the fresh pair in
memory, create the key directory when missing, and write the serialized
record directly to `config.keyFile` with `fs.writeFileSync`.  A persist
failure (`persistFails`) is caught and logged; the in-memory pair is kept
and the filesystem keeps its old state. -/
def generateAndPersist (cfg : Config) (fs0 : FsState) (fresh : KeyPair)
    (createdAt : String) (persistFails : Bool) : LoadKeysResult :=
  let content := String.mk (stringifyJson (keyRecordJson fresh createdAt))
  let mkdirOps := if fs0.dirExists then [] else [FsOp.mkdirRec (dirname cfg.keyFile)]
  let ops := mkdirOps ++ [FsOp.writeFile cfg.keyFile content]
  if persistFails then ⟨fresh, ops, fs0⟩
  else ⟨fresh, ops, { keyFileContent := some content, dirExists := true }⟩

/-- `loadOrGenerateKeys` (lines 37–82): load the persisted record when
the file exists and parses, otherwise generate (`fresh` stands for the
nondeterministic output of `crypto.generateKeyPairSync`) and persist. -/
def loadOrGenerateKeys (cfg : Config) (fs0 : FsState) (fresh : KeyPair)
    (createdAt : String) (persistFails : Bool) : LoadKeysResult :=
  match fs0.keyFileContent with
  | some content =>
    match parseKeyRecord content with
    | some kp => ⟨kp, [], fs0⟩
    | none => generateAndPersist cfg fs0 fresh createdAt persistFails
  | none => generateAndPersist cfg fs0 fresh createdAt persistFails

/-! ## Character lemmas -/

theorem toNat_ofNat_valid {n : Nat} (h : n.isValidChar) : (Char.ofNat n).toNat = n := by
  simp [Char.ofNat, h, Char.ofNatAux, Char.toNat, UInt32.toNat]

theorem toNat_ofNat_lt {n : Nat} (h : n < 55296) : (Char.ofNat n).toNat = n :=
  toNat_ofNat_valid (Or.inl h)

theorem char_toNat_valid (c : Char) : c.toNat.isValidChar := c.valid

theorem char_ne_of_toNat_ne {c d : Char} (h : c.toNat ≠ d.toNat) : c ≠ d :=
  fun hcd => h (congrArg Char.toNat hcd)

/-! ## Base64 lemmas -/

theorem b64Index_b64Char : ∀ n, n < 64 → b64Index (b64Char n) = some n := by decide

theorem b64Char_ne_dot (n : Nat) : b64Char n ≠ '.' := by
  have hdot : ('.' : Char).toNat = 46 := rfl
  unfold b64Char
  split_ifs with h1 h2 h3 h4
  · exact char_ne_of_toNat_ne (by rw [toNat_ofNat_lt (by omega), hdot]; omega)
  · exact char_ne_of_toNat_ne (by rw [toNat_ofNat_lt (by omega), hdot]; omega)
  · exact char_ne_of_toNat_ne (by rw [toNat_ofNat_lt (by omega), hdot]; omega)
  · decide
  · decide

theorem b64Encode_ne_dot : ∀ (bs : List Nat), ∀ c ∈ b64Encode bs, c ≠ '.' := by
  intro bs
  induction bs using b64Encode.induct with
  | case1 => simp [b64Encode]
  | case2 a => simp [b64Encode, b64Char_ne_dot]
  | case3 a b => simp [b64Encode, b64Char_ne_dot]
  | case4 a b c rest ih =>
    simp only [b64Encode, List.mem_cons]
    rintro x (rfl | rfl | rfl | rfl | hx)
    · exact b64Char_ne_dot _
    · exact b64Char_ne_dot _
    · exact b64Char_ne_dot _
    · exact b64Char_ne_dot _
    · exact ih x hx

theorem b64Decode_encode :
    ∀ (bs : List Nat), (∀ b ∈ bs, b < 256) → b64Decode (b64Encode bs) = some bs := by
  intro bs
  induction bs using b64Encode.induct with
  | case1 => intro _; rfl
  | case2 a =>
    intro h
    have ha : a < 256 := h a (by simp)
    simp only [b64Encode, b64Decode]
    rw [b64Index_b64Char _ (by omega), b64Index_b64Char _ (by omega)]
    simp only [Option.some.injEq, List.cons.injEq, and_true]
    omega
  | case3 a b =>
    intro h
    have ha : a < 256 := h a (by simp)
    have hb : b < 256 := h b (by simp)
    simp only [b64Encode, b64Decode]
    rw [b64Index_b64Char _ (by omega), b64Index_b64Char _ (by omega),
      b64Index_b64Char _ (by omega)]
    simp only [Option.some.injEq, List.cons.injEq, and_true]
    constructor
    · omega
    · omega
  | case4 a b c rest ih =>
    intro h
    have ha : a < 256 := h a (by simp)
    have hb : b < 256 := h b (by simp)
    have hc : c < 256 := h c (by simp)
    have hrest : ∀ x ∈ rest, x < 256 := fun x hx => h x (by simp [hx])
    simp only [b64Encode, b64Decode]
    rw [b64Index_b64Char _ (by omega), b64Index_b64Char _ (by omega),
      b64Index_b64Char _ (by omega), b64Index_b64Char _ (by omega), ih hrest]
    simp only [Option.some.injEq, List.cons.injEq]
    refine ⟨by omega, by omega, by omega, trivial⟩

/-! ## Split lemmas -/

theorem splitOnDot_ne_nil (cs : List Char) : splitOnDot cs ≠ [] := by
  cases cs with
  | nil => simp [splitOnDot]
  | cons c rest =>
    simp only [splitOnDot]
    split
    · simp
    · cases h : splitOnDot rest <;> simp

theorem splitOnDot_append_dot (a bs : List Char) (ha : ∀ c ∈ a, c ≠ '.') :
    splitOnDot (a ++ '.' :: bs) = a :: splitOnDot bs := by
  induction a with
  | nil => simp [splitOnDot]
  | cons c a' ih =>
    have hc : c ≠ '.' := ha c (by simp)
    have ha' : ∀ x ∈ a', x ≠ '.' := fun x hx => ha x (by simp [hx])
    simp only [List.cons_append, splitOnDot, if_neg hc, List.append_eq, ih ha']

theorem splitOnDot_nodot (a : List Char) (ha : ∀ c ∈ a, c ≠ '.') :
    splitOnDot a = [a] := by
  induction a with
  | nil => rfl
  | cons c a' ih =>
    have hc : c ≠ '.' := ha c (by simp)
    have ha' : ∀ x ∈ a', x ≠ '.' := fun x hx => ha x (by simp [hx])
    simp only [splitOnDot, if_neg hc, ih ha']

theorem splitOnDot_token (h b s : List Char)
    (hh : ∀ c ∈ h, c ≠ '.') (hb : ∀ c ∈ b, c ≠ '.') (hs : ∀ c ∈ s, c ≠ '.') :
    splitOnDot (h ++ '.' :: (b ++ '.' :: s)) = [h, b, s] := by
  rw [splitOnDot_append_dot _ _ hh, splitOnDot_append_dot _ _ hb, splitOnDot_nodot _ hs]

/-! ## Digit and hexadecimal digit lemmas -/

/-- Decimal digit characters. -/
def isDigitChar (c : Char) : Prop := 48 ≤ c.toNat ∧ c.toNat ≤ 57

instance (c : Char) : Decidable (isDigitChar c) := by
  unfold isDigitChar
  infer_instance

theorem hexDigitChar_ascii : ∀ k, k < 16 → (hexDigitChar k).toNat < 128 := by decide

theorem hexVal_hexDigitChar : ∀ k, k < 16 → hexVal (hexDigitChar k) = some k := by decide

theorem digitVal_hexDigitChar : ∀ k, k < 10 → digitVal (hexDigitChar k) = some k := by decide

theorem hexDigitChar_isDigit : ∀ k, k < 10 → isDigitChar (hexDigitChar k) := by decide

theorem hex4_ascii (n : Nat) : ∀ d ∈ hex4 n, d.toNat < 128 := by
  intro d hd
  simp only [hex4, List.mem_cons, List.not_mem_nil, or_false] at hd
  rcases hd with rfl | rfl | rfl | rfl <;> exact hexDigitChar_ascii _ (by omega)

theorem hexVal4_hex4 (n : Nat) (h : n < 65536) :
    hexVal4 (hexDigitChar (n / 4096 % 16)) (hexDigitChar (n / 256 % 16))
      (hexDigitChar (n / 16 % 16)) (hexDigitChar (n % 16)) = some n := by
  rw [hexVal4, hexVal_hexDigitChar _ (by omega), hexVal_hexDigitChar _ (by omega),
    hexVal_hexDigitChar _ (by omega), hexVal_hexDigitChar _ (by omega)]
  simp only [Option.some.injEq]
  omega

theorem natDigitsRev_digits (n : Nat) : ∀ c ∈ natDigitsRev n, isDigitChar c := by
  induction n using natDigitsRev.induct with
  | case1 n h =>
    intro c hc
    rw [natDigitsRev, dif_pos h] at hc
    simp only [List.mem_singleton] at hc
    subst hc
    exact hexDigitChar_isDigit _ (by omega)
  | case2 n h ih =>
    intro c hc
    rw [natDigitsRev, dif_neg h] at hc
    simp only [List.mem_cons] at hc
    rcases hc with rfl | hc
    · exact hexDigitChar_isDigit _ (by omega)
    · exact ih c hc

theorem natChars_digits (n : Nat) : ∀ c ∈ natChars n, isDigitChar c := by
  intro c hc
  rw [natChars, List.mem_reverse] at hc
  exact natDigitsRev_digits n c hc

theorem natChars_ascii (n : Nat) : ∀ c ∈ natChars n, c.toNat < 128 := by
  intro c hc
  have := natChars_digits n c hc
  unfold isDigitChar at this
  omega

theorem natChars_ne_nil (n : Nat) : natChars n ≠ [] := by
  rw [natChars]
  simp only [ne_eq, List.reverse_eq_nil_iff]
  rw [natDigitsRev]
  split <;> simp

/-! ## ASCII output of the serializer -/

theorem escapeChar_ascii (c : Char) : ∀ d ∈ escapeChar c, d.toNat < 128 := by
  intro d hd
  unfold escapeChar at hd
  split_ifs at hd with h1 h2 h3 h4 h5 h6 h7 h8 h9 h10
  all_goals
    simp only [List.mem_cons, List.mem_append, List.not_mem_nil, or_false,
      List.mem_singleton] at hd
  · rcases hd with rfl | rfl
    · decide
    · decide
  · rcases hd with rfl | rfl
    · decide
    · decide
  · rcases hd with rfl | rfl
    · decide
    · decide
  · rcases hd with rfl | rfl
    · decide
    · decide
  · rcases hd with rfl | rfl
    · decide
    · decide
  · rcases hd with rfl | rfl
    · decide
    · decide
  · rcases hd with rfl | rfl
    · decide
    · decide
  · rcases hd with rfl | rfl | hd
    · decide
    · decide
    · exact hex4_ascii _ d hd
  · subst hd
    exact h9
  · rcases hd with rfl | rfl | hd
    · decide
    · decide
    · exact hex4_ascii _ d hd
  · rcases hd with (rfl | rfl | hd) | (rfl | rfl | hd)
    · decide
    · decide
    · exact hex4_ascii _ d hd
    · decide
    · decide
    · exact hex4_ascii _ d hd

theorem escapeString_ascii (cs : List Char) : ∀ d ∈ escapeString cs, d.toNat < 128 := by
  induction cs with
  | nil => simp [escapeString]
  | cons c rest ih =>
    intro d hd
    rw [escapeString] at hd
    rcases List.mem_append.mp hd with h | h
    · exact escapeChar_ascii c d h
    · exact ih d h

mutual

theorem stringifyJson_ascii : ∀ (v : Json), ∀ c ∈ stringifyJson v, c.toNat < 128
  | .jnull, c, hc => by
    simp only [stringifyJson, List.mem_cons, List.not_mem_nil, or_false] at hc
    rcases hc with rfl | rfl | rfl | rfl <;> decide
  | .jbool true, c, hc => by
    simp only [stringifyJson, List.mem_cons, List.not_mem_nil, or_false] at hc
    rcases hc with rfl | rfl | rfl | rfl <;> decide
  | .jbool false, c, hc => by
    simp only [stringifyJson, List.mem_cons, List.not_mem_nil, or_false] at hc
    rcases hc with rfl | rfl | rfl | rfl | rfl <;> decide
  | .jnum n, c, hc => natChars_ascii n c (by simpa [stringifyJson] using hc)
  | .jstr s, c, hc => by
    simp only [stringifyJson, List.mem_cons, List.mem_append, List.not_mem_nil, or_false] at hc
    rcases hc with rfl | hc | rfl
    · decide
    · exact escapeString_ascii s.data c hc
    · decide
  | .jarr its, c, hc => by
    simp only [stringifyJson, List.mem_cons, List.mem_append, List.not_mem_nil, or_false] at hc
    rcases hc with rfl | hc | rfl
    · decide
    · exact stringifyItems_ascii its c hc
    · decide
  | .jobj fs, c, hc => by
    simp only [stringifyJson, List.mem_cons, List.mem_append, List.not_mem_nil, or_false] at hc
    rcases hc with rfl | hc | rfl
    · decide
    · exact stringifyFields_ascii fs c hc
    · decide

theorem stringifyItems_ascii : ∀ (its : JsonItems), ∀ c ∈ stringifyItems its, c.toNat < 128
  | .nil, c, hc => by simp [stringifyItems] at hc
  | .cons v rest, c, hc => by
    rw [stringifyItems] at hc
    rcases List.mem_append.mp hc with h | h
    · exact stringifyJson_ascii v c h
    · exact stringifyItemsTail_ascii rest c h

theorem stringifyItemsTail_ascii : ∀ (its : JsonItems), ∀ c ∈ stringifyItemsTail its, c.toNat < 128
  | .nil, c, hc => by simp [stringifyItemsTail] at hc
  | .cons v rest, c, hc => by
    rw [stringifyItemsTail] at hc
    rcases List.mem_cons.mp hc with rfl | hc2
    · decide
    · rcases List.mem_append.mp hc2 with h | h
      · exact stringifyJson_ascii v c h
      · exact stringifyItemsTail_ascii rest c h

theorem stringifyFields_ascii : ∀ (fs : JsonFields), ∀ c ∈ stringifyFields fs, c.toNat < 128
  | .nil, c, hc => by simp [stringifyFields] at hc
  | .cons k v rest, c, hc => by
    rw [stringifyFields] at hc
    rcases List.mem_cons.mp hc with rfl | hc2
    · decide
    · rcases List.mem_append.mp hc2 with h | h
      · exact escapeString_ascii k.data c h
      · rcases List.mem_cons.mp h with rfl | h2
        · decide
        · rcases List.mem_cons.mp h2 with rfl | h3
          · decide
          · rcases List.mem_append.mp h3 with h4 | h4
            · exact stringifyJson_ascii v c h4
            · exact stringifyFieldsTail_ascii rest c h4

theorem stringifyFieldsTail_ascii : ∀ (fs : JsonFields), ∀ c ∈ stringifyFieldsTail fs, c.toNat < 128
  | .nil, c, hc => by simp [stringifyFieldsTail] at hc
  | .cons k v rest, c, hc => by
    rw [stringifyFieldsTail] at hc
    rcases List.mem_cons.mp hc with rfl | hc1
    · decide
    · rcases List.mem_cons.mp hc1 with rfl | hc2
      · decide
      · rcases List.mem_append.mp hc2 with h | h
        · exact escapeString_ascii k.data c h
        · rcases List.mem_cons.mp h with rfl | h2
          · decide
          · rcases List.mem_cons.mp h2 with rfl | h3
            · decide
            · rcases List.mem_append.mp h3 with h4 | h4
              · exact stringifyJson_ascii v c h4
              · exact stringifyFieldsTail_ascii rest c h4

end

/-! ## Byte conversion lemmas -/

theorem bytesToChars_charsToBytes (cs : List Char) (h : ∀ c ∈ cs, c.toNat < 128) :
    bytesToChars (charsToBytes cs) = some cs := by
  induction cs with
  | nil => rfl
  | cons c rest ih =>
    have hc : c.toNat < 128 := h c (by simp)
    have hrest : ∀ x ∈ rest, x.toNat < 128 := fun x hx => h x (by simp [hx])
    simp only [charsToBytes, List.map_cons, bytesToChars, if_pos hc]
    rw [show (List.map Char.toNat rest) = charsToBytes rest from rfl, ih hrest]
    simp [Char.ofNat_toNat]

theorem charsToBytes_lt_256 (cs : List Char) (h : ∀ c ∈ cs, c.toNat < 128) :
    ∀ b ∈ charsToBytes cs, b < 256 := by
  intro b hb
  rcases List.mem_map.mp hb with ⟨c, hc, rfl⟩
  exact lt_trans (h c hc) (by omega)

/-! ## Number literal round-trip -/

/-- The continuation after a serialized number must not begin with a
digit (in serialized documents it is `,`, `]`, `}` or the end). -/
def noDigitHead : List Char → Prop
  | [] => True
  | c :: _ => digitVal c = none

instance (cs : List Char) : Decidable (noDigitHead cs) := by
  unfold noDigitHead
  cases cs <;> infer_instance

theorem natChars_lt {n : Nat} (h : n < 10) : natChars n = [hexDigitChar n] := by
  rw [natChars, natDigitsRev, dif_pos h, List.reverse_singleton]

theorem natChars_ge {n : Nat} (h : ¬ n < 10) :
    natChars n = natChars (n / 10) ++ [hexDigitChar (n % 10)] := by
  rw [natChars, natDigitsRev, dif_neg h, List.reverse_cons, natChars]

theorem parseNatChars_stop (acc : Nat) (rest : List Char) (h : noDigitHead rest) :
    parseNatChars acc rest = (acc, rest) := by
  cases rest with
  | nil => rfl
  | cons c tl =>
    unfold noDigitHead at h
    rw [parseNatChars, h]

theorem parseNatChars_append (n : Nat) :
    ∀ (acc : Nat) (rest : List Char),
      parseNatChars acc (natChars n ++ rest) =
        parseNatChars (acc * 10 ^ (natChars n).length + n) rest := by
  induction n using Nat.strong_induction_on with
  | _ n ih =>
    intro acc rest
    by_cases h : n < 10
    · rw [natChars_lt h]
      simp only [List.singleton_append, List.length_singleton, pow_one]
      rw [parseNatChars, digitVal_hexDigitChar n h]
      show parseNatChars (10 * acc + n) rest = parseNatChars (acc * 10 + n) rest
      rw [Nat.mul_comm]
    · rw [natChars_ge h, List.append_assoc, List.singleton_append,
        ih (n / 10) (by omega) acc (hexDigitChar (n % 10) :: rest)]
      rw [parseNatChars, digitVal_hexDigitChar (n % 10) (by omega)]
      have harith :
          10 * (acc * 10 ^ (natChars (n / 10)).length + n / 10) + n % 10 =
          acc * 10 ^ (natChars (n / 10) ++ [hexDigitChar (n % 10)]).length + n := by
        rw [List.length_append, List.length_singleton, pow_succ]
        have hdm : 10 * (n / 10) + n % 10 = n := by omega
        rw [Nat.mul_add, Nat.add_assoc, hdm]
        ring
      show parseNatChars
          (10 * (acc * 10 ^ (natChars (n / 10)).length + n / 10) + n % 10) rest = _
      rw [harith]

theorem natChars_cons (n : Nat) : ∃ c tl, natChars n = c :: tl := by
  cases hc : natChars n with
  | nil => exact absurd hc (natChars_ne_nil n)
  | cons c tl => exact ⟨c, tl, rfl⟩

theorem parseNatFrom_natChars (n : Nat) (rest : List Char) (h : noDigitHead rest) :
    parseNatFrom (natChars n ++ rest) = some (n, rest) := by
  obtain ⟨c, tl, hct⟩ := natChars_cons n
  have hcdig : isDigitChar c := natChars_digits n c (by rw [hct]; simp)
  have hdv : digitVal c = some (c.toNat - 48) := by
    unfold digitVal
    rw [if_pos]
    exact ⟨hcdig.1, hcdig.2⟩
  have h0 : parseNatChars 0 (natChars n ++ rest) = (n, rest) := by
    rw [parseNatChars_append, Nat.zero_mul, Nat.zero_add, parseNatChars_stop n rest h]
  rw [hct, List.cons_append] at h0
  have h1 : parseNatChars (c.toNat - 48) (tl ++ rest) = (n, rest) := by
    rw [parseNatChars, hdv] at h0
    simpa using h0
  rw [hct, List.cons_append, parseNatFrom, hdv]
  show some (parseNatChars (c.toNat - 48) (tl ++ rest)) = some (n, rest)
  rw [h1]

/-! ## String escape round-trip -/

theorem uEscape_bmp {a b c d : Char} {n : Nat} (hv : hexVal4 a b c d = some n)
    (hs1 : ¬ (55296 ≤ n ∧ n ≤ 56319)) (hs2 : ¬ (56320 ≤ n ∧ n ≤ 57343)) (tl : List Char) :
    uEscape (a :: b :: c :: d :: tl) = some (Char.ofNat n, tl) := by
  rw [uEscape, hv]
  simp only [if_neg hs1, if_neg hs2]

theorem uEscape_pair {a b c d a2 b2 c2 d2 : Char} {n m : Nat}
    (hv : hexVal4 a b c d = some n) (hs1 : 55296 ≤ n ∧ n ≤ 56319)
    (hv2 : hexVal4 a2 b2 c2 d2 = some m) (hs2 : 56320 ≤ m ∧ m ≤ 57343) (tl : List Char) :
    uEscape (a :: b :: c :: d :: '\\' :: 'u' :: a2 :: b2 :: c2 :: d2 :: tl) =
      some (Char.ofNat (65536 + (n - 55296) * 1024 + (m - 56320)), tl) := by
  rw [uEscape, hv]
  simp only [if_pos hs1, hv2, if_pos hs2]
  simp

theorem escapeChar_length_pos (c : Char) : 1 ≤ (escapeChar c).length := by
  unfold escapeChar
  split_ifs <;> simp

theorem escapeString_length_ge (cs : List Char) : cs.length ≤ (escapeString cs).length := by
  induction cs with
  | nil => simp [escapeString]
  | cons c rest ih =>
    rw [escapeString, List.length_append, List.length_cons]
    have := escapeChar_length_pos c
    omega

theorem parseStringBody_quote (g : Nat) (tl : List Char) :
    parseStringBody (g + 1) ('"' :: tl) = some ([], tl) := by
  rw [parseStringBody]
  simp

theorem parseStringBody_bslash (g : Nat) (tl : List Char) :
    parseStringBody (g + 1) ('\\' :: tl) = parseEscape g tl := by
  rw [parseStringBody]
  simp

theorem parseStringBody_raw {c : Char} (h1 : ¬ c = '"') (h2 : ¬ c = '\\')
    (h3 : ¬ c.toNat < 32) (g : Nat) (tl : List Char) :
    parseStringBody (g + 1) (c :: tl) =
      (parseStringBody g tl).map (fun p => (c :: p.1, p.2)) := by
  rw [parseStringBody, if_neg h1, if_neg h2, if_neg h3]

theorem parseEscape_simple {e ch : Char} (h : simpleEscape e = some ch) (g : Nat)
    (tl : List Char) :
    parseEscape (g + 1) (e :: tl) =
      (parseStringBody g tl).map (fun p => (ch :: p.1, p.2)) := by
  rw [parseEscape]
  simp [h]

theorem parseEscape_u {tl tl2 : List Char} {ch : Char}
    (h : uEscape tl = some (ch, tl2)) (g : Nat) :
    parseEscape (g + 1) ('u' :: tl) =
      (parseStringBody g tl2).map (fun p => (ch :: p.1, p.2)) := by
  rw [parseEscape]
  have hsu : simpleEscape 'u' = none := by decide
  simp [hsu, h]

theorem parseStringBody_escape (cs : List Char) : ∀ (g : Nat) (rest : List Char),
    2 * cs.length < g →
    parseStringBody g (escapeString cs ++ '"' :: rest) = some (cs, rest) := by
  induction cs with
  | nil =>
    intro g rest hg
    obtain ⟨g2, rfl⟩ : ∃ g2, g = g2 + 1 := ⟨g - 1, by omega⟩
    rw [escapeString, List.nil_append, parseStringBody_quote]
  | cons c cs' ih =>
    intro g rest hg
    simp only [List.length_cons] at hg
    obtain ⟨g1, rfl⟩ : ∃ g1, g = g1 + 2 := ⟨g - 2, by omega⟩
    have hg' : 2 * cs'.length < g1 + 1 := by omega
    have hg'' : 2 * cs'.length < g1 := by omega
    rw [escapeString, List.append_assoc]
    unfold escapeChar
    split_ifs with h1 h2 h3 h4 h5 h6 h7 h8 h9 h10
    · subst h1
      rw [show (['\\', '"'] : List Char) ++ (escapeString cs' ++ '"' :: rest) =
        '\\' :: '"' :: (escapeString cs' ++ '"' :: rest) from rfl,
        show g1 + 2 = (g1 + 1) + 1 from rfl, parseStringBody_bslash,
        parseEscape_simple (show simpleEscape '"' = some '"' by decide),
        ih g1 rest hg'', Option.map_some']
    · subst h2
      rw [show (['\\', '\\'] : List Char) ++ (escapeString cs' ++ '"' :: rest) =
        '\\' :: '\\' :: (escapeString cs' ++ '"' :: rest) from rfl,
        show g1 + 2 = (g1 + 1) + 1 from rfl, parseStringBody_bslash,
        parseEscape_simple (show simpleEscape '\\' = some '\\' by decide),
        ih g1 rest hg'', Option.map_some']
    · subst h3
      rw [show (['\\', 'b'] : List Char) ++ (escapeString cs' ++ '"' :: rest) =
        '\\' :: 'b' :: (escapeString cs' ++ '"' :: rest) from rfl,
        show g1 + 2 = (g1 + 1) + 1 from rfl, parseStringBody_bslash,
        parseEscape_simple (show simpleEscape 'b' = some (Char.ofNat 8) by decide),
        ih g1 rest hg'', Option.map_some']
    · subst h4
      rw [show (['\\', 't'] : List Char) ++ (escapeString cs' ++ '"' :: rest) =
        '\\' :: 't' :: (escapeString cs' ++ '"' :: rest) from rfl,
        show g1 + 2 = (g1 + 1) + 1 from rfl, parseStringBody_bslash,
        parseEscape_simple (show simpleEscape 't' = some (Char.ofNat 9) by decide),
        ih g1 rest hg'', Option.map_some']
    · subst h5
      rw [show (['\\', 'n'] : List Char) ++ (escapeString cs' ++ '"' :: rest) =
        '\\' :: 'n' :: (escapeString cs' ++ '"' :: rest) from rfl,
        show g1 + 2 = (g1 + 1) + 1 from rfl, parseStringBody_bslash,
        parseEscape_simple (show simpleEscape 'n' = some (Char.ofNat 10) by decide),
        ih g1 rest hg'', Option.map_some']
    · subst h6
      rw [show (['\\', 'f'] : List Char) ++ (escapeString cs' ++ '"' :: rest) =
        '\\' :: 'f' :: (escapeString cs' ++ '"' :: rest) from rfl,
        show g1 + 2 = (g1 + 1) + 1 from rfl, parseStringBody_bslash,
        parseEscape_simple (show simpleEscape 'f' = some (Char.ofNat 12) by decide),
        ih g1 rest hg'', Option.map_some']
    · subst h7
      rw [show (['\\', 'r'] : List Char) ++ (escapeString cs' ++ '"' :: rest) =
        '\\' :: 'r' :: (escapeString cs' ++ '"' :: rest) from rfl,
        show g1 + 2 = (g1 + 1) + 1 from rfl, parseStringBody_bslash,
        parseEscape_simple (show simpleEscape 'r' = some (Char.ofNat 13) by decide),
        ih g1 rest hg'', Option.map_some']
    · have hlt : c.toNat < 65536 := by omega
      have hs1 : ¬ (55296 ≤ c.toNat ∧ c.toNat ≤ 56319) := by omega
      have hs2 : ¬ (56320 ≤ c.toNat ∧ c.toNat ≤ 57343) := by omega
      rw [hex4]
      simp only [List.cons_append, List.nil_append]
      rw [show g1 + 2 = (g1 + 1) + 1 from rfl, parseStringBody_bslash,
        parseEscape_u (uEscape_bmp (hexVal4_hex4 c.toNat hlt) hs1 hs2 _),
        ih g1 rest hg'', Option.map_some', Char.ofNat_toNat]
    · rw [List.singleton_append,
        show g1 + 2 = (g1 + 1) + 1 from rfl, parseStringBody_raw h1 h2 h8,
        ih (g1 + 1) rest hg', Option.map_some']
    · have hs1 : ¬ (55296 ≤ c.toNat ∧ c.toNat ≤ 56319) := by
        rcases char_toNat_valid c with hv | hv <;> omega
      have hs2 : ¬ (56320 ≤ c.toNat ∧ c.toNat ≤ 57343) := by
        rcases char_toNat_valid c with hv | hv <;> omega
      rw [hex4]
      simp only [List.cons_append, List.nil_append]
      rw [show g1 + 2 = (g1 + 1) + 1 from rfl, parseStringBody_bslash,
        parseEscape_u (uEscape_bmp (hexVal4_hex4 c.toNat h10) hs1 hs2 _),
        ih g1 rest hg'', Option.map_some', Char.ofNat_toNat]
    · have hvhi : c.toNat < 1114112 := by
        rcases char_toNat_valid c with hv | hv <;> omega
      have hge : 65536 ≤ c.toNat := by omega
      have hhi : 55296 + (c.toNat - 65536) / 1024 < 65536 := by omega
      have hlo : 56320 + (c.toNat - 65536) % 1024 < 65536 := by omega
      have hs1 : 55296 ≤ 55296 + (c.toNat - 65536) / 1024 ∧
          55296 + (c.toNat - 65536) / 1024 ≤ 56319 := by
        constructor <;> omega
      have hs2 : 56320 ≤ 56320 + (c.toNat - 65536) % 1024 ∧
          56320 + (c.toNat - 65536) % 1024 ≤ 57343 := by
        constructor <;> omega
      have harith : 65536 +
          (55296 + (c.toNat - 65536) / 1024 - 55296) * 1024 +
          (56320 + (c.toNat - 65536) % 1024 - 56320) = c.toNat := by omega
      rw [hex4, hex4]
      simp only [List.cons_append, List.nil_append, List.append_assoc]
      rw [show g1 + 2 = (g1 + 1) + 1 from rfl, parseStringBody_bslash,
        parseEscape_u (uEscape_pair (hexVal4_hex4 _ hhi) hs1 (hexVal4_hex4 _ hlo) hs2 _),
        ih g1 rest hg'', Option.map_some', harith, Char.ofNat_toNat]

/-- The fuel every call site supplies is always enough. -/
theorem parseStringBody_escape_auto (cs rest : List Char) :
    parseStringBody (2 * (escapeString cs ++ '"' :: rest).length + 1)
      (escapeString cs ++ '"' :: rest) = some (cs, rest) := by
  apply parseStringBody_escape
  have := escapeString_length_ge cs
  simp only [List.length_append, List.length_cons]
  omega

/-! ## Sizes: a fuel bound for the parser -/

mutual

/-- Node count of a JSON value, used as a lower bound for parser fuel. -/
def sizeJ : Json → Nat
  | .jnull => 1
  | .jbool _ => 1
  | .jnum _ => 1
  | .jstr _ => 1
  | .jarr its => 2 + sizeItems its
  | .jobj fs => 2 + sizeFields fs

/-- Combined size of array elements. -/
def sizeItems : JsonItems → Nat
  | .nil => 0
  | .cons v rest => 1 + sizeJ v + sizeItems rest

/-- Combined size of object fields. -/
def sizeFields : JsonFields → Nat
  | .nil => 0
  | .cons _ v rest => 1 + sizeJ v + sizeFields rest

end

mutual

theorem sizeJ_le : ∀ (v : Json), sizeJ v ≤ 2 * (stringifyJson v).length
  | .jnull => by simp [sizeJ, stringifyJson]
  | .jbool true => by simp [sizeJ, stringifyJson]
  | .jbool false => by simp [sizeJ, stringifyJson]
  | .jnum n => by
    obtain ⟨c, tl, h⟩ := natChars_cons n
    simp [sizeJ, stringifyJson, h]
    omega
  | .jstr s => by
    simp [sizeJ, stringifyJson]
    omega
  | .jarr .nil => by simp [sizeJ, stringifyJson, sizeItems, stringifyItems]
  | .jarr (.cons v rest) => by
    have h1 := sizeJ_le v
    have h2 := sizeItemsTail_le rest
    simp only [sizeJ, stringifyJson, sizeItems, stringifyItems, List.length_cons,
      List.length_append]
    omega
  | .jobj .nil => by simp [sizeJ, stringifyJson, sizeFields, stringifyFields]
  | .jobj (.cons k v rest) => by
    have h1 := sizeJ_le v
    have h2 := sizeFieldsTail_le rest
    simp only [sizeJ, stringifyJson, sizeFields, stringifyFields, List.length_cons,
      List.length_append]
    omega

theorem sizeItemsTail_le : ∀ (its : JsonItems), sizeItems its ≤ 2 * (stringifyItemsTail its).length
  | .nil => by simp [sizeItems, stringifyItemsTail]
  | .cons v rest => by
    have h1 := sizeJ_le v
    have h2 := sizeItemsTail_le rest
    simp only [sizeItems, stringifyItemsTail, List.length_cons, List.length_append]
    omega

theorem sizeFieldsTail_le : ∀ (fs : JsonFields), sizeFields fs ≤ 2 * (stringifyFieldsTail fs).length
  | .nil => by simp [sizeFields, stringifyFieldsTail]
  | .cons k v rest => by
    have h1 := sizeJ_le v
    have h2 := sizeFieldsTail_le rest
    simp only [sizeFields, stringifyFieldsTail, List.length_cons, List.length_append]
    omega

end

/-! ## Head shape of serialized values -/

theorem stringifyJson_head (v : Json) :
    ∃ c cs0, stringifyJson v = c :: cs0 ∧ c ≠ ']' := by
  cases v with
  | jnull => exact ⟨'n', _, rfl, by decide⟩
  | jbool b =>
    cases b with
    | true => exact ⟨'t', _, rfl, by decide⟩
    | false => exact ⟨'f', _, rfl, by decide⟩
  | jnum n =>
    obtain ⟨c, tl, h⟩ := natChars_cons n
    have hd : isDigitChar c := natChars_digits n c (by rw [h]; simp)
    refine ⟨c, tl, by simp [stringifyJson, h], char_ne_of_toNat_ne ?_⟩
    have h93 : (']' : Char).toNat = 93 := rfl
    unfold isDigitChar at hd
    omega
  | jstr s => exact ⟨'"', _, rfl, by decide⟩
  | jarr its => exact ⟨'[', _, rfl, by decide⟩
  | jobj fs => exact ⟨'{', _, rfl, by decide⟩

/-! ## `noDigitHead` helpers -/

theorem noDigitHead_nil : noDigitHead [] := trivial

theorem noDigitHead_comma (xs : List Char) : noDigitHead (',' :: xs) := by
  show digitVal ',' = none
  decide

theorem noDigitHead_rbracket (xs : List Char) : noDigitHead (']' :: xs) := by
  show digitVal ']' = none
  decide

theorem noDigitHead_rbrace (xs : List Char) : noDigitHead ('}' :: xs) := by
  show digitVal '}' = none
  decide

theorem string_mk_data (s : String) : String.mk s.data = s := rfl

/-! ## The parser round-trip -/

theorem sizeJ_pos (v : Json) : 1 ≤ sizeJ v := by
  cases v <;> simp only [sizeJ] <;> omega

theorem parse_stringify_round : ∀ (f : Nat),
    (∀ (v : Json) (rest : List Char), sizeJ v ≤ f → noDigitHead rest →
      parseValue f (stringifyJson v ++ rest) = some (v, rest)) ∧
    (∀ (its : JsonItems) (rest : List Char), 1 + sizeItems its ≤ f →
      parseItems f (stringifyItems its ++ (']' :: rest)) = some (its, rest)) ∧
    (∀ (v : Json) (its : JsonItems) (rest : List Char),
      1 + sizeJ v + sizeItems its ≤ f →
      parseItemsMore f (stringifyJson v ++ (stringifyItemsTail its ++ (']' :: rest))) =
        some (.cons v its, rest)) ∧
    (∀ (fs : JsonFields) (rest : List Char), 1 + sizeFields fs ≤ f →
      parseFields f (stringifyFields fs ++ ('}' :: rest)) = some (fs, rest)) ∧
    (∀ (k : String) (v : Json) (fs : JsonFields) (rest : List Char),
      1 + sizeJ v + sizeFields fs ≤ f →
      parseFieldsMore f
        ('"' :: (escapeString k.data ++ ('"' :: ':' :: (stringifyJson v ++
          (stringifyFieldsTail fs ++ ('}' :: rest)))))) =
        some (.cons k v fs, rest)) := by
  intro f
  induction f with
  | zero =>
    refine ⟨?_, ?_, ?_, ?_, ?_⟩
    · intro v rest hsz _
      have := sizeJ_pos v
      omega
    · intro its rest hsz
      omega
    · intro v its rest hsz
      omega
    · intro fs rest hsz
      omega
    · intro k v fs rest hsz
      omega
  | succ f ih =>
    obtain ⟨ihV, ihI, ihIM, ihF, ihFM⟩ := ih
    refine ⟨?_, ?_, ?_, ?_, ?_⟩
    · intro v rest hsz hnd
      cases v with
      | jnull =>
        show parseValue (f + 1) (['n', 'u', 'l', 'l'] ++ rest) = _
        simp only [List.cons_append, List.nil_append]
        rw [parseValue]
        simp [parseNullBody]
      | jbool b =>
        cases b with
        | true =>
          show parseValue (f + 1) (['t', 'r', 'u', 'e'] ++ rest) = _
          simp only [List.cons_append, List.nil_append]
          rw [parseValue]
          simp [parseTrueBody]
        | false =>
          show parseValue (f + 1) (['f', 'a', 'l', 's', 'e'] ++ rest) = _
          simp only [List.cons_append, List.nil_append]
          rw [parseValue]
          simp [parseFalseBody]
      | jnum n =>
        obtain ⟨c, tl, hc⟩ := natChars_cons n
        have hd : isDigitChar c := natChars_digits n c (by rw [hc]; simp)
        unfold isDigitChar at hd
        show parseValue (f + 1) (natChars n ++ rest) = _
        rw [hc, List.cons_append, parseValue]
        rw [if_neg (char_ne_of_toNat_ne (c := c) (d := 'n') (by
          have : ('n' : Char).toNat = 110 := rfl
          omega))]
        rw [if_neg (char_ne_of_toNat_ne (c := c) (d := 't') (by
          have : ('t' : Char).toNat = 116 := rfl
          omega))]
        rw [if_neg (char_ne_of_toNat_ne (c := c) (d := 'f') (by
          have : ('f' : Char).toNat = 102 := rfl
          omega))]
        rw [if_neg (char_ne_of_toNat_ne (c := c) (d := '"') (by
          have : ('"' : Char).toNat = 34 := rfl
          omega))]
        rw [if_neg (char_ne_of_toNat_ne (c := c) (d := '[') (by
          have : ('[' : Char).toNat = 91 := rfl
          omega))]
        rw [if_neg (char_ne_of_toNat_ne (c := c) (d := '{') (by
          have : ('{' : Char).toNat = 123 := rfl
          omega))]
        rw [← List.cons_append, ← hc, parseNatFrom_natChars n rest hnd]
        rfl
      | jstr s =>
        show parseValue (f + 1) (('"' :: (escapeString s.data ++ ['"'])) ++ rest) = _
        simp only [List.cons_append, List.append_assoc, List.singleton_append,
          List.nil_append]
        rw [parseValue]
        simp only [show (('"' : Char) = 'n') = False by simp,
          show (('"' : Char) = 't') = False by simp,
          show (('"' : Char) = 'f') = False by simp, if_false, if_pos rfl]
        rw [parseStringBody_escape_auto s.data rest]
        simp [string_mk_data]
      | jarr its =>
        show parseValue (f + 1) (('[' :: (stringifyItems its ++ [']'])) ++ rest) = _
        simp only [List.cons_append, List.append_assoc, List.singleton_append,
          List.nil_append]
        rw [parseValue]
        simp only [show (('[' : Char) = 'n') = False by simp,
          show (('[' : Char) = 't') = False by simp,
          show (('[' : Char) = 'f') = False by simp,
          show (('[' : Char) = '"') = False by simp, if_false, if_pos rfl]
        have hsz2 : 1 + sizeItems its ≤ f := by
          simp only [sizeJ] at hsz
          omega
        rw [ihI its rest hsz2]
        rfl
      | jobj fs =>
        show parseValue (f + 1) (('{' :: (stringifyFields fs ++ ['}'])) ++ rest) = _
        simp only [List.cons_append, List.append_assoc, List.singleton_append,
          List.nil_append]
        rw [parseValue]
        simp only [show (('{' : Char) = 'n') = False by simp,
          show (('{' : Char) = 't') = False by simp,
          show (('{' : Char) = 'f') = False by simp,
          show (('{' : Char) = '"') = False by simp,
          show (('{' : Char) = '[') = False by simp, if_false, if_pos rfl]
        have hsz2 : 1 + sizeFields fs ≤ f := by
          simp only [sizeJ] at hsz
          omega
        rw [ihF fs rest hsz2]
        rfl
    · intro its rest hsz
      cases its with
      | nil =>
        show parseItems (f + 1) ([] ++ (']' :: rest)) = _
        rw [List.nil_append, parseItems]
      | cons v its2 =>
        show parseItems (f + 1)
          ((stringifyJson v ++ stringifyItemsTail its2) ++ (']' :: rest)) = _
        obtain ⟨c0, cs0, hv0, hne0⟩ := stringifyJson_head v
        have hsz2 : 1 + sizeJ v + sizeItems its2 ≤ f := by
          simp only [sizeItems] at hsz
          omega
        rw [List.append_assoc, hv0, List.cons_append, parseItems]
        · rw [← List.cons_append, ← hv0, ihIM v its2 rest hsz2]
        · intro rest2 heq
          exact absurd (by simpa using congrArg List.head? heq) hne0
    · intro v its rest hsz
      have hndI : noDigitHead (stringifyItemsTail its ++ (']' :: rest)) := by
        cases its with
        | nil =>
          simpa [stringifyItemsTail] using noDigitHead_rbracket rest
        | cons v2 its2 =>
          simp only [stringifyItemsTail, List.cons_append]
          exact noDigitHead_comma _
      rw [parseItemsMore, ihV v _ (by omega) hndI]
      cases its with
      | nil =>
        simp [stringifyItemsTail]
      | cons v2 its2 =>
        simp only [stringifyItemsTail, List.cons_append, List.append_assoc]
        have hsz2 : 1 + sizeJ v2 + sizeItems its2 ≤ f := by
          simp only [sizeItems] at hsz
          omega
        rw [ihIM v2 its2 rest hsz2]
    · intro fs rest hsz
      cases fs with
      | nil =>
        show parseFields (f + 1) ([] ++ ('}' :: rest)) = _
        rw [List.nil_append, parseFields]
      | cons k v fs2 =>
        show parseFields (f + 1)
          (('"' :: (escapeString k.data ++ '"' :: ':' ::
            (stringifyJson v ++ stringifyFieldsTail fs2))) ++ ('}' :: rest)) = _
        have hsz2 : 1 + sizeJ v + sizeFields fs2 ≤ f := by
          simp only [sizeFields] at hsz
          omega
        rw [List.cons_append, parseFields]
        · have hshape :
              (escapeString k.data ++ '"' :: ':' ::
                (stringifyJson v ++ stringifyFieldsTail fs2)) ++ ('}' :: rest) =
              escapeString k.data ++ ('"' :: ':' :: (stringifyJson v ++
                (stringifyFieldsTail fs2 ++ ('}' :: rest)))) := by
            simp [List.append_assoc]
          rw [hshape, ihFM k v fs2 rest hsz2]
        · intro rest2 heq
          exact absurd (show ('"' : Char) = '}' by simpa using congrArg List.head? heq)
            (by decide)
    · intro k v fs rest hsz
      have hndF : noDigitHead (stringifyFieldsTail fs ++ ('}' :: rest)) := by
        cases fs with
        | nil =>
          simpa [stringifyFieldsTail] using noDigitHead_rbrace rest
        | cons k2 v2 fs2 =>
          simp only [stringifyFieldsTail, List.cons_append]
          exact noDigitHead_comma _
      rw [parseFieldsMore]
      rw [parseStringBody_escape_auto k.data]
      simp only []
      rw [ihV v _ (by omega) hndF]
      cases fs with
      | nil =>
        simp [stringifyFieldsTail, string_mk_data]
      | cons k2 v2 fs2 =>
        simp only [stringifyFieldsTail, List.cons_append, List.append_assoc]
        have hsz2 : 1 + sizeJ v2 + sizeFields fs2 ≤ f := by
          simp only [sizeFields] at hsz
          omega
        rw [ihFM k2 v2 fs2 rest hsz2]

/-- `JSON.parse ∘ JSON.stringify` is the identity on the embedded values. -/
theorem parseJsonChars_stringify (v : Json) :
    parseJsonChars (stringifyJson v) = some v := by
  have hsz : sizeJ v ≤ 2 * (stringifyJson v).length + 1 := by
    have := sizeJ_le v
    omega
  have h := (parse_stringify_round (2 * (stringifyJson v).length + 1)).1 v [] hsz trivial
  rw [List.append_nil] at h
  rw [parseJsonChars, h]

/-! ## The token pipeline round-trip -/

theorem data_mk (l : List Char) : (String.mk l).data = l := rfl

/-- Decoding the compact token emitted by `generateToken` recovers the
claims exactly as `parseToken` projects them out of the payload, for any
payload other than JSON `null` (on which decoding throws). -/
theorem parseToken_generateToken (cfg : Config) (payload : Json) (sigBytes : List Nat)
    (hnn : payload ≠ .jnull) :
    parseToken (generateToken cfg payload sigBytes) =
      some { uuid := jlookup payload "sub"
           , name := jsOr (jlookup payload "username") (jlookup payload "name")
           , scope := jlookup payload "scope"
           , aud := jlookup payload "aud" } := by
  rw [generateToken, parseToken, data_mk]
  rw [splitOnDot_token _ _ _ (b64Encode_ne_dot _) (b64Encode_ne_dot _) (b64Encode_ne_dot _)]
  simp only []
  rw [payloadClaims]
  have hascii := stringifyJson_ascii payload
  rw [b64Decode_encode _ (charsToBytes_lt_256 _ hascii)]
  simp only []
  rw [bytesToChars_charsToBytes _ hascii]
  simp only []
  rw [parseJsonChars_stringify payload]
  simp only []
  rw [if_neg hnn]

/-- Encoding the JSON `null` payload produces a token `parseToken`
rejects: property access on the decoded `null` throws. -/
theorem parseToken_generateToken_null (cfg : Config) (sigBytes : List Nat) :
    parseToken (generateToken cfg .jnull sigBytes) = none := by
  rw [generateToken, parseToken, data_mk]
  rw [splitOnDot_token _ _ _ (b64Encode_ne_dot _) (b64Encode_ne_dot _) (b64Encode_ne_dot _)]
  simp only []
  rw [payloadClaims]
  have hascii := stringifyJson_ascii Json.jnull
  rw [b64Decode_encode _ (charsToBytes_lt_256 _ hascii)]
  simp only []
  rw [bytesToChars_charsToBytes _ hascii]
  simp only []
  rw [parseJsonChars_stringify Json.jnull]
  simp

/-! # The claims -/

/-- C4: for every freshly built claim set — identity, session, authorization
grant and access token alike — the `iss` member equals the issuer resolver's
output (`getIssuerUrl`) for the host header of the request that produced it. -/
theorem claim_issuer_binding (cfg : Config) (uuid name audience : String)
    (scopes : ScopesInput) (entitlements : List String) (requestHost : Option String)
    (certFingerprint : Option String) (now : Nat) (jti : String) :
    jlookup (identityPayload cfg uuid name scopes entitlements requestHost now jti) "iss"
      = some (.jstr (getIssuerUrl cfg requestHost)) ∧
    jlookup (sessionPayload cfg uuid requestHost now jti) "iss"
      = some (.jstr (getIssuerUrl cfg requestHost)) ∧
    jlookup (grantPayload cfg uuid name audience scopes requestHost now jti) "iss"
      = some (.jstr (getIssuerUrl cfg requestHost)) ∧
    jlookup (accessPayload cfg uuid name audience certFingerprint scopes requestHost now jti) "iss"
      = some (.jstr (getIssuerUrl cfg requestHost)) := by
  refine ⟨?_, ?_, ?_, ?_⟩
  · simp [identityPayload, jlookup, jlookupFields]
  · simp [sessionPayload, jlookup, jlookupFields]
  · simp [grantPayload, jlookup, jlookupFields]
  · rcases certFingerprint with _ | f
    · simp [accessPayload, jlookup, jlookupFields]
    · by_cases hf : f = "" <;> simp [accessPayload, jlookup, jlookupFields, hf]

/-- C5: every freshly built claim set carries `iat = now` and
`exp = now + sessionTtl`, so the lifetime `exp − iat` is the configured
session TTL for all four token kinds; the spec-modelled default
configuration sets it to 36000 seconds. -/
theorem claim_token_ttl (cfg : Config) (uuid name audience : String)
    (scopes : ScopesInput) (entitlements : List String) (requestHost : Option String)
    (certFingerprint : Option String) (now : Nat) (jti : String) :
    (jlookup (identityPayload cfg uuid name scopes entitlements requestHost now jti) "iat"
        = some (.jnum now) ∧
      jlookup (identityPayload cfg uuid name scopes entitlements requestHost now jti) "exp"
        = some (.jnum (now + cfg.sessionTtl))) ∧
    (jlookup (sessionPayload cfg uuid requestHost now jti) "iat" = some (.jnum now) ∧
      jlookup (sessionPayload cfg uuid requestHost now jti) "exp"
        = some (.jnum (now + cfg.sessionTtl))) ∧
    (jlookup (grantPayload cfg uuid name audience scopes requestHost now jti) "iat"
        = some (.jnum now) ∧
      jlookup (grantPayload cfg uuid name audience scopes requestHost now jti) "exp"
        = some (.jnum (now + cfg.sessionTtl))) ∧
    (jlookup (accessPayload cfg uuid name audience certFingerprint scopes requestHost now jti) "iat"
        = some (.jnum now) ∧
      jlookup (accessPayload cfg uuid name audience certFingerprint scopes requestHost now jti) "exp"
        = some (.jnum (now + cfg.sessionTtl))) ∧
    (now + cfg.sessionTtl) - now = cfg.sessionTtl ∧
    defaultConfig.sessionTtl = 36000 := by
  refine ⟨⟨?_, ?_⟩, ⟨?_, ?_⟩, ⟨?_, ?_⟩, ⟨?_, ?_⟩, by omega, rfl⟩
  · simp [identityPayload, jlookup, jlookupFields]
  · simp [identityPayload, jlookup, jlookupFields]
  · simp [sessionPayload, jlookup, jlookupFields]
  · simp [sessionPayload, jlookup, jlookupFields]
  · simp [grantPayload, jlookup, jlookupFields]
  · simp [grantPayload, jlookup, jlookupFields]
  · rcases certFingerprint with _ | f
    · simp [accessPayload, jlookup, jlookupFields]
    · by_cases hf : f = "" <;> simp [accessPayload, jlookup, jlookupFields, hf]
  · rcases certFingerprint with _ | f
    · simp [accessPayload, jlookup, jlookupFields]
    · by_cases hf : f = "" <;> simp [accessPayload, jlookup, jlookupFields, hf]

/-- C6: the code's issuer resolution (`getIssuerUrl`) coincides with the
spec's description (`specResolveIssuer`): strip the port, use
`https://<host>` when the stripped host contains the configured base
domain, and fall back to `https://<domain>` otherwise — also when no host
header is present. -/
theorem claim_issuer_resolution (cfg : Config) (requestHost : Option String) :
    getIssuerUrl cfg requestHost = specResolveIssuer cfg requestHost := by
  cases requestHost with
  | none => rfl
  | some h =>
    by_cases hh : h = ""
    · subst hh
      rw [getIssuerUrl, specResolveIssuer]
      rw [if_neg (by simp)]
      have hdata : ("" : String).data = [] := rfl
      cases hd : cfg.domain.data with
      | nil =>
        have hdom : cfg.domain = String.mk [] := by rw [← string_mk_data cfg.domain, hd]
        simp [hdata, containsSubstr, headMatches, hd, hdom]
      | cons c cs =>
        simp [hdata, containsSubstr, headMatches, hd]
    · simp [getIssuerUrl, specResolveIssuer, hh]

/-- C9: decoding the compact token produced by encoding a claim set — a
JSON object of claims — recovers the claims exactly: the serialized
payload parses back to the identical JSON value byte-for-byte, and the
projected `sub`, `scope` and `aud` equal those of the claim set, while the
projected name is the claim set's `username` when that is present
(truthy), else its `name`.  At the boundary, the JSON `null` payload is
not a claim set and its encoded token is rejected by the decoder, whose
property access throws on `null`. -/
theorem claim_codec_roundtrip (cfg : Config) (fields : JsonFields) (sigBytes : List Nat) :
    parseJsonChars (stringifyJson (.jobj fields)) = some (.jobj fields) ∧
    parseToken (generateToken cfg (.jobj fields) sigBytes) =
      some { uuid := jlookup (.jobj fields) "sub"
           , name := jsOr (jlookup (.jobj fields) "username") (jlookup (.jobj fields) "name")
           , scope := jlookup (.jobj fields) "scope"
           , aud := jlookup (.jobj fields) "aud" } ∧
    parseToken (generateToken cfg .jnull sigBytes) = none :=
  ⟨parseJsonChars_stringify (.jobj fields),
   parseToken_generateToken cfg (.jobj fields) sigBytes (fun h => Json.noConfusion h),
   parseToken_generateToken_null cfg sigBytes⟩

/-- C10: the public parsing surface is total — a non-token string, a token
whose payload is not base64url, one whose payload is not JSON, an absent
headers object, headers without an authorization member, and an
authorization value with no token shape all yield `null`, never an
exception (the embedded functions are total by construction). -/
theorem claim_parsing_total :
    parseToken ("not-a-token") = none ∧
    parseToken ("a.!!!.c") = none ∧
    parseToken ("a.aGVsbG8.c") = none ∧
    extractServerAudienceFromHeaders none = none ∧
    (∀ h : Headers, h.authorization = none →
      extractServerAudienceFromHeaders (some h) = none) ∧
    extractServerAudienceFromHeaders (some { authorization := some ("Bearer oops") }) = none := by
  refine ⟨by decide, by decide, by decide, rfl, ?_, by decide⟩
  intro h hauth
  rw [extractServerAudienceFromHeaders, hauth]

/-- C10 witness: headers carrying no authorization member yield `null`. -/
theorem claim_parsing_total_witness :
    extractServerAudienceFromHeaders (some { authorization := none }) = none :=
  claim_parsing_total.2.2.2.2.1 { authorization := none } rfl

/-- C1: counterexample — a two-part string (no third signature part, no
header inspection possible) is accepted by `parseToken` and yields claim
data, where the claim demands rejection of everything that does not have
exactly three parts. -/
theorem claim_parse_min_parts_counterexample :
    (splitOnDot ("x.eyJzdWIiOiJ1In0" : String).data).length = 2 ∧
    parseToken ("x.eyJzdWIiOiJ1In0") =
      some { uuid := some (.jstr ("u")), name := none, scope := none, aud := none } :=
  ⟨by decide, by decide⟩

/-- C1: amended — `parseToken` rejects inputs with fewer than two
dot-separated parts, and for every input with at least two parts its
result is `payloadClaims` of the second part alone: claims are returned
exactly when that part base64url-decodes and parses to a JSON value other
than `null` (a `null` payload makes property access throw, landing in the
`catch`), and the header part and any third part are never inspected, so
no base64 check and no `alg` check is performed on the header. -/
theorem claim_parse_min_parts (s : String) (a p : List Char) (ps : List (List Char))
    (h1 h2 b : List Char) :
    ((splitOnDot s.data).length ≤ 1 → parseToken s = none) ∧
    (splitOnDot s.data = a :: p :: ps → parseToken s = payloadClaims p) ∧
    ((∀ c ∈ h1, c ≠ '.') → (∀ c ∈ h2, c ≠ '.') →
      parseToken (String.mk (h1 ++ '.' :: b)) = parseToken (String.mk (h2 ++ '.' :: b))) := by
  refine ⟨?_, ?_, ?_⟩
  · intro hlen
    rw [parseToken]
    rcases hsp : splitOnDot s.data with _ | ⟨a2, tail⟩
    · exact absurd hsp (splitOnDot_ne_nil _)
    · rcases tail with _ | ⟨p2, ps2⟩
      · simp only [hsp]
      · exfalso
        rw [hsp] at hlen
        simp at hlen
  · intro hsp
    rw [parseToken]
    simp only [hsp]
  · intro hh1 hh2
    rw [parseToken, parseToken, data_mk, data_mk,
      splitOnDot_append_dot _ _ hh1, splitOnDot_append_dot _ _ hh2]
    rcases hb : splitOnDot b with _ | ⟨p2, ps2⟩
    · exact absurd hb (splitOnDot_ne_nil _)
    · rfl

/-- C1 witness: a dot-free string yields `null`; a two-part token whose
payload is the JSON `null` literal is decided entirely by its payload part
(and is rejected there); and two tokens differing only in their header
part parse identically. -/
theorem claim_parse_min_parts_witness :
    parseToken ("nodots") = none ∧
    (parseToken ("x.bnVsbA") = payloadClaims (("bnVsbA" : String).data) ∧
      payloadClaims (("bnVsbA" : String).data) = none) ∧
    parseToken (String.mk (("AAAA" : String).data ++ '.' :: ("eyJzdWIiOiJ1In0" : String).data)) =
      parseToken (String.mk (("BBBB" : String).data ++ '.' :: ("eyJzdWIiOiJ1In0" : String).data)) :=
  ⟨(claim_parse_min_parts ("nodots") [] [] [] [] [] []).1 (by decide),
   ⟨(claim_parse_min_parts ("x.bnVsbA") (("x" : String).data) (("bnVsbA" : String).data)
       [] [] [] []).2.1 (by decide),
    by decide⟩,
   (claim_parse_min_parts ("") [] [] [] (("AAAA" : String).data) (("BBBB" : String).data)
     (("eyJzdWIiOiJ1In0" : String).data)).2.2 (by decide) (by decide)⟩

/-- C2: counterexample — with no caller-supplied scopes the scope claim of
a freshly built identity claim set is the three-scope default
`hytale:server hytale:client hytale:editor`, not the claimed
`hytale:server hytale:client`. -/
theorem claim_scope_normalization_counterexample :
    jlookup (identityPayload defaultConfig ("u") ("n") .noScopes ["game.base"] none 0 ("j")) "scope"
      = some (.jstr ("hytale:server hytale:client hytale:editor")) ∧
    ("hytale:server hytale:client hytale:editor" : String) ≠ "hytale:server hytale:client" :=
  ⟨by decide, by decide⟩

/-- C2: amended — the default scope string is the code's `DEFAULT_SCOPES`,
`hytale:server hytale:client hytale:editor`; a list input is joined by
single spaces in order with duplicates preserved; a non-empty string input
passes through verbatim (an empty string falls back to the default); and
the normalized value is exactly what is embedded as the `scope` member of
the identity, grant, and access claim sets. -/
theorem claim_scope_normalization (cfg : Config) (uuid name audience : String)
    (scopes : ScopesInput) (entitlements : List String) (requestHost : Option String)
    (certFingerprint : Option String) (now : Nat) (jti : String) :
    DEFAULT_SCOPES = "hytale:server hytale:client hytale:editor" ∧
    normalizeScopes .noScopes DEFAULT_SCOPES = DEFAULT_SCOPES ∧
    (∀ l : List String, normalizeScopes (.arrScopes l) DEFAULT_SCOPES
      = String.intercalate (" ") l) ∧
    normalizeScopes (.arrScopes ["hytale:server", "b", "hytale:server"]) DEFAULT_SCOPES
      = "hytale:server b hytale:server" ∧
    (∀ s : String, s ≠ "" → normalizeScopes (.strScopes s) DEFAULT_SCOPES = s) ∧
    jlookup (identityPayload cfg uuid name scopes entitlements requestHost now jti) "scope"
      = some (.jstr (normalizeScopes scopes DEFAULT_SCOPES)) ∧
    jlookup (grantPayload cfg uuid name audience scopes requestHost now jti) "scope"
      = some (.jstr (normalizeScopes scopes DEFAULT_SCOPES)) ∧
    jlookup (accessPayload cfg uuid name audience certFingerprint scopes requestHost now jti) "scope"
      = some (.jstr (normalizeScopes scopes DEFAULT_SCOPES)) := by
  refine ⟨rfl, rfl, fun l => rfl, by decide, ?_, ?_, ?_, ?_⟩
  · intro s hs
    simp [normalizeScopes, hs]
  · simp [identityPayload, jlookup, jlookupFields]
  · simp [grantPayload, jlookup, jlookupFields]
  · rcases certFingerprint with _ | f
    · simp [accessPayload, jlookup, jlookupFields]
    · by_cases hf : f = "" <;> simp [accessPayload, jlookup, jlookupFields, hf]

/-- C2 witness: a concrete non-empty string input passes through
verbatim. -/
theorem claim_scope_normalization_witness :
    normalizeScopes (.strScopes ("custom:it")) DEFAULT_SCOPES = "custom:it" :=
  (claim_scope_normalization defaultConfig ("u") ("n") ("a") .noScopes [] none none
    0 ("j")).2.2.2.2.1 ("custom:it") (by decide)

/-- C3: counterexample — on a first start (no key file), the persist path
performs a direct `writeFileSync` to the configured key file and no rename
at all, where the claim demands an atomic write-then-rename. -/
theorem claim_keystore_persistence_counterexample :
    ((loadOrGenerateKeys defaultConfig { keyFileContent := none, dirExists := false }
        { privateKeyB64 := ("sk"), publicKeyB64 := ("pk") } ("2026-01-01T00:00:00Z")
        false).ops.any opIsRename = false) ∧
    ((loadOrGenerateKeys defaultConfig { keyFileContent := none, dirExists := false }
        { privateKeyB64 := ("sk"), publicKeyB64 := ("pk") } ("2026-01-01T00:00:00Z")
        false).ops.any (opWritesTo defaultConfig.keyFile) = true) :=
  ⟨by decide, by decide⟩

/-- C3: amended — when the key file is missing or unparseable the key
store keeps a freshly generated pair in memory and persists it by writing
the record directly to the key file (not write-then-rename); a failing
persist still leaves the fresh pair in memory with the filesystem
unchanged; and a parseable record is loaded without touching the
filesystem. -/
theorem claim_keystore_persistence (cfg : Config) (fs0 : FsState) (fresh : KeyPair)
    (createdAt : String) (persistFails : Bool) :
    (fs0.keyFileContent = none →
      (loadOrGenerateKeys cfg fs0 fresh createdAt persistFails).keys = fresh ∧
      (loadOrGenerateKeys cfg fs0 fresh createdAt persistFails).ops.any
        (opWritesTo cfg.keyFile) = true ∧
      (loadOrGenerateKeys cfg fs0 fresh createdAt persistFails).ops.any opIsRename = false) ∧
    (∀ content, fs0.keyFileContent = some content → parseKeyRecord content = none →
      (loadOrGenerateKeys cfg fs0 fresh createdAt persistFails).keys = fresh ∧
      (loadOrGenerateKeys cfg fs0 fresh createdAt persistFails).ops.any
        (opWritesTo cfg.keyFile) = true ∧
      (loadOrGenerateKeys cfg fs0 fresh createdAt persistFails).ops.any opIsRename = false) ∧
    (persistFails = true → fs0.keyFileContent = none →
      (loadOrGenerateKeys cfg fs0 fresh createdAt persistFails).keys = fresh ∧
      (loadOrGenerateKeys cfg fs0 fresh createdAt persistFails).fs = fs0) ∧
    (∀ content kp, fs0.keyFileContent = some content → parseKeyRecord content = some kp →
      (loadOrGenerateKeys cfg fs0 fresh createdAt persistFails).keys = kp ∧
      (loadOrGenerateKeys cfg fs0 fresh createdAt persistFails).ops = []) := by
  refine ⟨?_, ?_, ?_, ?_⟩
  · intro hnone
    rw [loadOrGenerateKeys, hnone]
    cases fs0.dirExists <;> cases persistFails <;>
      simp [generateAndPersist, opWritesTo, opIsRename]
  · intro content hsome hbad
    rw [loadOrGenerateKeys, hsome]
    simp only []
    rw [hbad]
    cases fs0.dirExists <;> cases persistFails <;>
      simp [generateAndPersist, opWritesTo, opIsRename]
  · intro hpf hnone
    rw [loadOrGenerateKeys, hnone]
    subst hpf
    cases fs0.dirExists <;> simp [generateAndPersist]
  · intro content kp hsome hgood
    rw [loadOrGenerateKeys, hsome]
    simp only []
    rw [hgood]
    exact ⟨rfl, rfl⟩

/-- C3 witness: a first start with no key file keeps the fresh pair in
memory. -/
theorem claim_keystore_persistence_witness :
    (loadOrGenerateKeys defaultConfig { keyFileContent := none, dirExists := true }
      { privateKeyB64 := ("sk"), publicKeyB64 := ("pk") } ("t") false).keys
      = { privateKeyB64 := ("sk"), publicKeyB64 := ("pk") } :=
  ((claim_keystore_persistence defaultConfig { keyFileContent := none, dirExists := true }
    { privateKeyB64 := ("sk"), publicKeyB64 := ("pk") } ("t") false).1 rfl).1

/-- C8: for every access claim set built with a caller-supplied (non-empty)
certificate fingerprint, the confirmation member `cnf` carries
`x5t#S256` bound to exactly the supplied string — the core performs no
computation on it — and with no fingerprint supplied no `cnf` member
exists at all. -/
theorem claim_cnf_verbatim (cfg : Config) (uuid name audience : String)
    (scopes : ScopesInput) (requestHost : Option String) (now : Nat) (jti : String) :
    (∀ f : String, f ≠ "" →
      jlookup (accessPayload cfg uuid name audience (some f) scopes requestHost now jti) "cnf"
        = some (.jobj (.cons "x5t#S256" (.jstr f) .nil))) ∧
    jlookup (accessPayload cfg uuid name audience none scopes requestHost now jti) "cnf"
      = none := by
  constructor
  · intro f hf
    simp [accessPayload, jlookup, jlookupFields, hf]
  · simp [accessPayload, jlookup, jlookupFields]

/-- C8 witness: a concrete fingerprint lands verbatim under `x5t#S256`. -/
theorem claim_cnf_verbatim_witness :
    jlookup (accessPayload defaultConfig ("u") ("n") ("srv") (some ("FP")) .noScopes
      none 0 ("j")) "cnf" = some (.jobj (.cons "x5t#S256" (.jstr ("FP")) .nil)) :=
  (claim_cnf_verbatim defaultConfig ("u") ("n") ("srv") .noScopes none 0 ("j")).1
    ("FP") (by decide)

theorem headMatches_append (p t : List Char) : headMatches p (p ++ t) = true := by
  induction p with
  | nil => rfl
  | cons c cs ih => simp [headMatches, ih]

theorem removeFirst_append (p t : List Char) (hp : p ≠ []) :
    removeFirst p (p ++ t) = t := by
  cases p with
  | nil => exact absurd rfl hp
  | cons c cs =>
    rw [List.cons_append, removeFirst]
    rw [if_pos (by rw [← List.cons_append]; exact headMatches_append (c :: cs) t)]
    rw [← List.cons_append, List.drop_left]

theorem string_data_append (s t : String) : (s ++ t).data = s.data ++ t.data := by
  cases s
  cases t
  rfl

/-- C7: audience capture from a bearer token — whenever the request's
authorization header carries `Bearer <token>` whose second dot-separated
part base64url-decodes to a JSON payload, the extracted server audience is
the payload's `aud` when that member is present and truthy; otherwise the
payload's `sub` when the scope is exactly `hytale:server` and `sub` is
present and truthy; otherwise nothing is extracted. -/
theorem claim_audience_capture (tok : String) (a p : List Char) (ps : List (List Char))
    (bytes : List Nat) (cs : List Char) (payload : Json)
    (hsplit : splitOnDot tok.data = a :: p :: ps)
    (hdec : b64Decode p = some bytes)
    (hchars : bytesToChars bytes = some cs)
    (hjson : parseJsonChars cs = some payload) :
    (jsTruthyOpt (jlookup payload "aud") = true →
      extractServerAudienceFromHeaders (some { authorization := some ("Bearer " ++ tok) })
        = jlookup payload "aud") ∧
    (jsTruthyOpt (jlookup payload "aud") = false →
      (isStrEq (jlookup payload "scope") ("hytale:server")
          && jsTruthyOpt (jlookup payload "sub")) = true →
      extractServerAudienceFromHeaders (some { authorization := some ("Bearer " ++ tok) })
        = jlookup payload "sub") ∧
    (jsTruthyOpt (jlookup payload "aud") = false →
      (isStrEq (jlookup payload "scope") ("hytale:server")
          && jsTruthyOpt (jlookup payload "sub")) = false →
      extractServerAudienceFromHeaders (some { authorization := some ("Bearer " ++ tok) })
        = none) := by
  have hne : ("Bearer " ++ tok : String) ≠ "" := by
    intro h
    have hd := congrArg String.data h
    rw [string_data_append] at hd
    simp at hd
  have hred : extractServerAudienceFromHeaders
      (some { authorization := some ("Bearer " ++ tok) }) =
      (if jsTruthyOpt (jlookup payload "aud") then jlookup payload "aud"
       else if isStrEq (jlookup payload "scope") ("hytale:server")
               && jsTruthyOpt (jlookup payload "sub") then jlookup payload "sub"
       else none) := by
    rw [extractServerAudienceFromHeaders]
    simp only []
    rw [if_neg hne, string_data_append,
      removeFirst_append _ _ (by decide), hsplit]
    simp only []
    rw [hdec]
    simp only []
    rw [hchars]
    simp only []
    rw [hjson]
  refine ⟨?_, ?_, ?_⟩
  · intro htrue
    rw [hred, if_pos (by rw [htrue])]
  · intro hfalse hsub
    rw [hred, if_neg (by rw [hfalse]; simp), if_pos (by rw [hsub])]
  · intro hfalse hsub
    rw [hred, if_neg (by rw [hfalse]; simp), if_neg (by rw [hsub]; simp)]

/-- C7 witness: a concrete bearer token whose payload carries
`aud = "srv"` yields exactly that audience. -/
theorem claim_audience_capture_witness :
    extractServerAudienceFromHeaders
      (some { authorization := some ("Bearer " ++ "x.eyJhdWQiOiJzcnYifQ") })
      = some (.jstr ("srv")) := by
  have h := (claim_audience_capture ("x.eyJhdWQiOiJzcnYifQ")
    (("x" : String).data) (("eyJhdWQiOiJzcnYifQ" : String).data) []
    ((("\x7b\"aud\":\"srv\"\x7d" : String).data).map Char.toNat)
    (("\x7b\"aud\":\"srv\"\x7d" : String).data)
    (.jobj (.cons ("aud") (.jstr ("srv")) .nil))
    (by decide) (by decide) (by decide) (by decide)).1 (by decide)
  rw [h]
  decide

end HytaleAuth
